import Mathlib

/-!
# Freematics network clients: HTTP header framing, inbound datagram extraction,
# HTTP connection states and GPS degree decoding

A shallow embedding of `libraries/FreematicsPlus/FreematicsNetwork.cpp`.

* Bytes are `Char`s, memory regions are `List Char`. A C string is the part of a
  region before its first NUL (the end of the list counts as a terminator).
* String arguments (`path`, `host`, `payload`) are given by their content, the bytes
  before the terminating NUL.
* Pointers into `m_buffer` are offsets (`Nat`) from the start of the buffer; a null
  pointer is `none`.
* `int` is 32 bits wide on the target (ESP32); conversions to `unsigned` are written
  as `% 4294967296`.
* The serial link and the socket are outside the file: what they answer is a
  parameter of every operation that talks to them.
-/

set_option linter.unusedVariables false

namespace Freematics

/-! ## C library routines used by the source -/

/-- The NUL byte that terminates a C string. -/
def NUL : Char := '\x00'

/-- The C string stored at the start of a memory region: everything before the first NUL. -/
def cstr : List Char → List Char
  | [] => []
  | c :: cs => if c = NUL then [] else c :: cstr cs

/-- The libc `strlen`. -/
def strlen (s : List Char) : Nat := (cstr s).length

/-- First index of `c` in a list that is already cut at its terminator. -/
def findChar (c : Char) : List Char → Option Nat
  | [] => none
  | x :: xs => if x = c then some 0 else (findChar c xs).map (· + 1)

/-- The libc `strchr` for a non-NUL character: offset of the first occurrence of `c`
in the C string at `s`, or `none` (null pointer). -/
def strchr (s : List Char) (c : Char) : Option Nat := findChar c (cstr s)

/-- First index at which `needle` occurs in a list that is already cut at its terminator. -/
def findSub (needle : List Char) : List Char → Option Nat
  | [] => if needle = [] then some 0 else none
  | x :: xs =>
    if needle.isPrefixOf (x :: xs) then some 0 else (findSub needle xs).map (· + 1)

/-- The libc `strstr`: offset of the first occurrence of `needle` in the C string at
`hay`, or `none` (null pointer). -/
def strstr (hay needle : List Char) : Option Nat := findSub needle (cstr hay)

/-- The libc `isdigit`. -/
def isdigit (c : Char) : Bool := decide ('0' ≤ c) && decide (c ≤ '9')

/-- The libc `isspace` in the C locale. -/
def isspace (c : Char) : Bool :=
  c = ' ' || c = '\t' || c = '\n' || c = '\x0b' || c = '\x0c' || c = '\r'

/-- Value of the leading run of decimal digits, accumulated left to right from `acc`. -/
def digitsValue : Nat → List Char → Nat
  | acc, [] => acc
  | acc, c :: cs => if isdigit c then digitsValue (acc * 10 + (c.toNat - 48)) cs else acc

/-- Drops the leading white space that `atoi` and `atol` skip. -/
def skipSpace : List Char → List Char
  | [] => []
  | c :: cs => if isspace c then skipSpace cs else c :: cs

/-- Clamps a value to the range of a 32-bit `int` / `long`. -/
def clampInt (v : Int) : Int := max (-2147483648) (min v 2147483647)

/-- The libc `atoi` / `atol` of the target (newlib: `strtol(s, NULL, 10)`, and `long`
is as wide as `int`): optional white space, an optional sign, then decimal digits up
to the first byte that is not a digit; a value outside the 32-bit range is clamped to
the nearest bound. -/
def atoi (s : List Char) : Int :=
  clampInt
    (match skipSpace (cstr s) with
     | '-' :: cs => - (digitsValue 0 cs : Int)
     | '+' :: cs => (digitsValue 0 cs : Int)
     | cs => (digitsValue 0 cs : Int))

/-- One argument of a `sprintf` call. -/
inductive FmtArg where
  | str (v : List Char)
  | uint (v : Nat)

/-- The libc `sprintf` restricted to the conversions the source uses: `%s` copies a
string argument, `%u` prints an unsigned argument in decimal, every other byte of the
format is copied. The result is the text written (the return value of `sprintf` is
its length). -/
def sprintf : List Char → List FmtArg → List Char
  | [], _ => []
  | '%' :: 's' :: fmt, FmtArg.str v :: args => v ++ sprintf fmt args
  | '%' :: 'u' :: fmt, FmtArg.uint v :: args => Nat.toDigits 10 v ++ sprintf fmt args
  | c :: fmt, args => c :: sprintf fmt args

/-- Conversion of an `int` argument to the `unsigned` that `%u` prints. -/
def toUnsigned (n : Int) : Nat := (n % 4294967296).toNat

/-! ## `HTTPClient::genHeader` -/

/-- Modelled from the spec: the request method enumeration `HTTP_METHOD` is declared in
`FreematicsNetwork.h`, which is not part of the sources at hand; the spec names the
two methods GET and POST. -/
inductive HTTP_METHOD where
  | HTTP_GET
  | HTTP_POST
  deriving DecidableEq, Repr

open HTTP_METHOD

/-- The body of `HTTPClient::genHeader`: the three `sprintf` calls in order. The first
component is the text written to `header`, the second the value returned, `p - header`,
obtained by adding the return values of the `sprintf` calls (in a 32-bit address space
the difference is below `2^32`, so the cast to `unsigned int` leaves it as it is). -/
def genHeader (method : HTTP_METHOD) (path : List Char) (keepAlive : Bool)
    (payload : Option (List Char)) (payloadSize : Int) : List Char × Nat :=
  let s1 := sprintf "%s %s HTTP/1.1\r\nConnection: %s\r\n".toList
    [FmtArg.str (if method = HTTP_GET then "GET".toList else "POST".toList),
     FmtArg.str path,
     FmtArg.str (if keepAlive then "keep-alive".toList else "close".toList)]
  let p := s1.length
  let s2 := if method = HTTP_POST then
      sprintf "Content-length: %u\r\n".toList [FmtArg.uint (toUnsigned payloadSize)]
    else []
  let p := p + s2.length
  let s3 := sprintf "\r\n".toList []
  let p := p + s3.length
  (s1 ++ s2 ++ s3, p)

/-- The lines of a text, cut at every line feed (a line of the HTTP header keeps its
carriage return). -/
def splitLF : List Char → List (List Char)
  | [] => [[]]
  | c :: cs =>
    if c = '\n' then [] :: splitLF cs
    else (c :: (splitLF cs).headD []) :: (splitLF cs).tail

/-- The header line `Content-length: <n>` (with its carriage return). -/
def contentLengthLine (n : Nat) : List Char :=
  "Content-length: ".toList ++ Nat.toDigits 10 n ++ ['\r']

/-- Does the header have a line starting with `Content-length: `. -/
def hasContentLength (h : List Char) : Bool :=
  (splitLF h).any (fun l => "Content-length: ".toList.isPrefixOf l)

/-! ## The modem behind `sendCommand` -/

/-- Modelled from the spec: the connection state enumeration `HTTP_STATES` is declared in
`FreematicsNetwork.h`, which is not part of the sources at hand; the spec lists
ConnectionState as Disconnected, Connected, Sent, Error. -/
inductive HTTP_STATES where
  | HTTP_DISCONNECTED
  | HTTP_CONNECTED
  | HTTP_SENT
  | HTTP_ERROR
  deriving DecidableEq, Repr

open HTTP_STATES

/-- What one call of the device routine `xbReceive` (not part of this file) does: the
value it returns (0 when no expected pattern showed up before the timeout) and the
bytes it leaves in `m_buffer`. -/
structure Reply where
  ret : Nat
  buffer : List Char
  deriving DecidableEq, Repr

/-- The members of a modem client that the operations below touch, together with the
device behind it: `replies` are the answers of the coming `xbReceive` calls in order
(none left: nothing arrives any more and every wait times out), `written` is the log of
what went out through `xbWrite`. `m_host` and `m_port` are members of
`HTTPClientSIM800` only. -/
structure Modem where
  m_buffer : List Char
  m_state : HTTP_STATES
  m_host : List Char
  m_port : Nat
  replies : List Reply
  written : List (List Char)
  deriving DecidableEq, Repr

/-- The routine `xbWrite` of the device, for a NUL-terminated string. -/
def xbWrite (data : List Char) (m : Modem) : Modem :=
  { m with written := m.written ++ [cstr data] }

/-- The body of `sendCommand` (the same text in `ClientSIM800` and `ClientSIM5360`, which
`ClientSIM7600` inherits): write the command if there is one, clear the buffer with
`m_buffer[0] = 0`, then let `xbReceive` fill it. The timeout and the expected pattern
only decide what `xbReceive` answers, which is the next entry of `replies`. -/
def sendCommand (cmd : Option (List Char)) (m : Modem) : Bool × Modem :=
  let m1 := match cmd with
    | some c => xbWrite c m
    | none => m
  let m2 := { m1 with m_buffer := m1.m_buffer.set 0 NUL }
  match m2.replies with
  | [] => (false, m2)
  | r :: rs => (decide (r.ret ≠ 0), { m2 with m_buffer := r.buffer, replies := rs })

/-! ## Inbound datagrams -/

/-- Outcome of a `checkIncoming` or `receive` call: the pointer returned, as an offset
into `m_buffer` (`none` is the null pointer), and the value stored through `pbytes`
(`none` when nothing was stored). -/
structure Incoming where
  data : Option Nat
  bytes : Option Int
  deriving DecidableEq, Repr

/-- The body shared word for word by `UDPClientSIM5360::checkIncoming` and
`UDPClientSIM7600::checkIncoming`, on the buffer alone. The leading `checkGPS()` only
reads `m_buffer` (its stores go to `*m_gps`), so the buffer reaches `strstr` as it was.
In `strlen(++p) > len` the `int` is converted to `unsigned`. -/
def checkIncomingIPD (m_buffer : List Char) : Incoming × List Char :=
  match strstr m_buffer "+IPD".toList with
  | none => (⟨none, none⟩, m_buffer)
  | some i =>
    let buf1 := m_buffer.set i '-'
    let len := atoi (buf1.drop (i + 4))
    match strchr (buf1.drop i) '\n' with
    | none => (⟨none, some len⟩, buf1)
    | some j =>
      let p := i + j + 1
      let buf2 :=
        if strlen (buf1.drop p) > toUnsigned len then
          buf1.set ((p : Int) + len).toNat NUL
        else buf1
      (⟨some p, some len⟩, buf2)

/-- The function `UDPClientSIM5360::checkIncoming`. -/
def UDPClientSIM5360.checkIncoming (m : Modem) : Incoming × Modem :=
  let r := checkIncomingIPD m.m_buffer
  (r.1, { m with m_buffer := r.2 })

/-- The function `UDPClientSIM7600::checkIncoming`. -/
def UDPClientSIM7600.checkIncoming (m : Modem) : Incoming × Modem :=
  let r := checkIncomingIPD m.m_buffer
  (r.1, { m with m_buffer := r.2 })

/-- The body of `UDPClientSIM800::checkIncoming` on the buffer alone. -/
def checkIncomingRECV (m_buffer : List Char) : Incoming × List Char :=
  match strstr m_buffer "RECV FROM:".toList with
  | none => (⟨none, none⟩, m_buffer)
  | some i =>
    let buf1 := m_buffer.set i '-'
    match strchr (buf1.drop i) '\n' with
    | none => (⟨none, none⟩, buf1)
    | some j =>
      let p := i + j
      (⟨some (p + 1), some (strlen (buf1.drop p) : Int)⟩, buf1)

/-- The function `UDPClientSIM800::checkIncoming`. -/
def UDPClientSIM800.checkIncoming (m : Modem) : Incoming × Modem :=
  let r := checkIncomingRECV m.m_buffer
  (r.1, { m with m_buffer := r.2 })

/-- The shape shared by the three modem `receive` functions for UDP: look for a datagram
already in the buffer, and only when there is none wait for the marker and look again.
A value the first look stored through `pbytes` stays there unless the second stores
another. -/
def udpReceive (check : Modem → Incoming × Modem) (cmd : Option (List Char)) (m : Modem) :
    Incoming × Modem :=
  let r1 := check m
  match r1.1.data with
  | some p => (r1.1, r1.2)
  | none =>
    let s := sendCommand cmd r1.2
    if s.1 then
      let r2 := check s.2
      (⟨r2.1.data, r2.1.bytes <|> r1.1.bytes⟩, r2.2)
    else (⟨none, r1.1.bytes⟩, s.2)

/-- The function `UDPClientSIM5360::receive`: waits with `sendCommand(0, timeout, "+IPD")`. -/
def UDPClientSIM5360.receive (m : Modem) : Incoming × Modem :=
  udpReceive UDPClientSIM5360.checkIncoming none m

/-- The function `UDPClientSIM7600::receive`: waits with `sendCommand(0, timeout, "+IPD")`. -/
def UDPClientSIM7600.receive (m : Modem) : Incoming × Modem :=
  udpReceive UDPClientSIM7600.checkIncoming none m

/-- The function `UDPClientSIM800::receive`: waits with
`sendCommand("AT+CIPUDPMODE?\r", timeout, "RECV FROM:")`. -/
def UDPClientSIM800.receive (m : Modem) : Incoming × Modem :=
  udpReceive UDPClientSIM800.checkIncoming (some "AT+CIPUDPMODE?\r".toList) m

/-- The C string a returned pointer designates. -/
def stringAt (m_buffer : List Char) (p : Nat) : List Char := cstr (m_buffer.drop p)

/-- Number of places of a text at which `needle` starts. -/
def occurrences (needle : List Char) : List Char → Nat
  | [] => 0
  | x :: xs => (if needle.isPrefixOf (x :: xs) then 1 else 0) + occurrences needle xs

/-- The cellular modem variants that implement the UDP and HTTP client interfaces. -/
inductive ModemVariant where
  | SIM800
  | SIM5360
  | SIM7600
  deriving DecidableEq, Repr

/-- The marker that announces an inbound datagram in each dialect. -/
def datagramMarker : ModemVariant → List Char
  | ModemVariant.SIM800 => "RECV FROM:".toList
  | ModemVariant.SIM5360 => "+IPD".toList
  | ModemVariant.SIM7600 => "+IPD".toList

/-- The virtual call `checkIncoming` on a modem UDP client. -/
def UDPClient.checkIncoming : ModemVariant → Modem → Incoming × Modem
  | ModemVariant.SIM800 => UDPClientSIM800.checkIncoming
  | ModemVariant.SIM5360 => UDPClientSIM5360.checkIncoming
  | ModemVariant.SIM7600 => UDPClientSIM7600.checkIncoming

/-- The virtual call `receive` on a modem UDP client. -/
def UDPClient.receive : ModemVariant → Modem → Incoming × Modem
  | ModemVariant.SIM800 => UDPClientSIM800.receive
  | ModemVariant.SIM5360 => UDPClientSIM5360.receive
  | ModemVariant.SIM7600 => UDPClientSIM7600.receive

/-- The bytes after an extracted payload once the terminating NUL has been stored on
the first of them (nothing is stored when there are none). -/
def cutTrailer : List Char → List Char
  | [] => []
  | _ :: t => NUL :: t

/-- What a call hands to its caller is the datagram `payload` of `n` bytes whose marker
starts at offset `k`: the count stored through `pbytes` is `n`, the string at the
returned pointer is `payload`, and the first byte of the marker is overwritten. -/
def Delivers (k n : Nat) (payload : List Char) (r : Incoming × Modem) : Prop :=
  r.1.bytes = some (n : Int) ∧
  (∃ p, r.1.data = some p ∧ stringAt r.2.m_buffer p = payload) ∧
  r.2.m_buffer.drop k = '-' :: (r.2.m_buffer.drop (k + 1))

/-! ## HTTP clients -/

/-- Conversion of an arithmetic result to the 32-bit `int` a function returns. -/
def toInt32 (v : Int) : Int := (v + 2147483648) % 4294967296 - 2147483648

/-- A `sprintf(m_buffer, ...)`: the text and its terminating NUL replace the start of
the buffer. -/
def sprintfBuf (text : List Char) (m_buffer : List Char) : List Char :=
  text ++ NUL :: m_buffer.drop (text.length + 1)

/-- A store `p[i] = c` with a signed index into a buffer that starts at `p`; a store
that falls outside the list is not represented. -/
def store (m_buffer : List Char) (i : Int) (c : Char) : List Char :=
  if 0 ≤ i then m_buffer.set i.toNat c else m_buffer

/-- The members of `HTTPClientWIFI` that the operations touch. What the socket `client`
answers is an argument of each operation. -/
structure WifiClient where
  m_buffer : List Char
  m_state : HTTP_STATES
  deriving DecidableEq, Repr

/-- The function `HTTPClientWIFI::open`; `connected` is the result of `client.connect`. -/
def HTTPClientWIFI.open (connected : Bool) (c : WifiClient) : Bool × WifiClient :=
  if connected then (true, { c with m_state := HTTP_CONNECTED })
  else (false, { c with m_state := HTTP_ERROR })

/-- The function `HTTPClientWIFI::close`. -/
def HTTPClientWIFI.close (c : WifiClient) : WifiClient :=
  { c with m_state := HTTP_DISCONNECTED }

/-- The function `HTTPClientWIFI::send`; `w1` and `w2` are what `client.write` returns for
the header and for the payload. The payload count is compared after conversion to
`unsigned`. -/
def HTTPClientWIFI.send (method : HTTP_METHOD) (path : List Char) (keepAlive : Bool)
    (payload : Option (List Char)) (payloadSize : Int) (w1 w2 : Nat) (c : WifiClient) :
    Int × WifiClient :=
  let h := genHeader method path keepAlive payload payloadSize
  let headerSize := h.2
  let c1 := { c with m_buffer := sprintfBuf h.1 c.m_buffer }
  if w1 ≠ headerSize then (0, { c1 with m_state := HTTP_DISCONNECTED })
  else if payloadSize ≠ 0 ∧ w2 ≠ toUnsigned payloadSize then
    (-1, { c1 with m_state := HTTP_ERROR })
  else (toInt32 ((headerSize : Int) + payloadSize), { c1 with m_state := HTTP_SENT })

/-- The loop of `HTTPClientWIFI::receive` over the bytes the socket delivers before the
timeout: every byte read is stored behind the ones stored so far (`acc`, followed by a
NUL), and the loop stops once the stored text contains the end of the headers. The
result tells whether it did, and what has been stored. -/
def HTTPClientWIFI.receiveLoop : List Char → List Char → Bool × List Char
  | [], acc => (false, acc)
  | b :: rest, acc =>
    if (strstr (acc ++ [b]) "\r\n\r\n".toList).isSome then (true, acc ++ [b])
    else HTTPClientWIFI.receiveLoop rest (acc ++ [b])

/-- The function `HTTPClientWIFI::receive`; `incoming` are the bytes `client.read` yields
before the timeout. The count `bytes` is the length of what was stored. -/
def HTTPClientWIFI.receive (incoming : List Char) (c : WifiClient) : Incoming × WifiClient :=
  let r := HTTPClientWIFI.receiveLoop incoming []
  let buf := if r.2 = [] then c.m_buffer else sprintfBuf r.2 c.m_buffer
  if !r.1 then (⟨none, none⟩, { m_buffer := buf, m_state := HTTP_ERROR })
  else (⟨some 0, some (r.2.length : Int)⟩, { m_buffer := buf, m_state := HTTP_CONNECTED })

/-- The function `HTTPClientSIM800::open`. -/
def HTTPClientSIM800.open (host : List Char) (port : Nat) (m : Modem) : Bool × Modem :=
  let s := sendCommand (some "AT+HTTPINIT\r".toList) m
  if !s.1 then (false, s.2)
  else (true, { s.2 with m_host := host, m_port := port, m_state := HTTP_CONNECTED })

/-- The function `HTTPClientSIM800::send`. In the POST branch the statement
`return payloadSize;` follows the `if` on `AT+HTTPACTION=1` without braces, so it runs
whatever that command answered. -/
def HTTPClientSIM800.send (method : HTTP_METHOD) (path : List Char) (keepAlive : Bool)
    (payload : Option (List Char)) (payloadSize : Int) (m : Modem) : Int × Modem :=
  let s1 := sendCommand (some "AT+HTTPPARA = \"CID\",1\r".toList) m
  let url := sprintf "AT+HTTPPARA=\"URL\",\"%s:%u%s\"\r".toList
    [FmtArg.str s1.2.m_host, FmtArg.uint s1.2.m_port, FmtArg.str path]
  let m1 := { s1.2 with m_buffer := sprintfBuf url s1.2.m_buffer }
  let s2 := sendCommand (some m1.m_buffer) m1
  if !s2.1 then (-1, { s2.2 with m_state := HTTP_ERROR })
  else if method = HTTP_GET then
    let s3 := sendCommand (some "AT+HTTPACTION=0\r".toList) s2.2
    if s3.1 then (toInt32 (strlen path), { s3.2 with m_state := HTTP_SENT })
    else (-1, { s3.2 with m_state := HTTP_ERROR })
  else
    let cmd := sprintf "AT+HTTPDATA=%u,10000\r".toList [FmtArg.uint (toUnsigned payloadSize)]
    let m2 := { s2.2 with m_buffer := sprintfBuf cmd s2.2.m_buffer }
    let s3 := sendCommand (some m2.m_buffer) m2
    if s3.1 then
      let s4 := sendCommand (some "AT+HTTPACTION=1\r".toList) s3.2
      (payloadSize, if s4.1 then { s4.2 with m_state := HTTP_SENT } else s4.2)
    else (-1, { s3.2 with m_state := HTTP_ERROR })

/-- The function `HTTPClientSIM800::close`. -/
def HTTPClientSIM800.close (m : Modem) : Modem :=
  { (sendCommand (some "AT+HTTPTERM\r".toList) m).2 with m_state := HTTP_DISCONNECTED }

/-- The part of `HTTPClientSIM800::receive` after the `+HTTPACTION` event is known to be
there: read the reply and cut the body out of it. -/
def HTTPClientSIM800.read (m : Modem) : Incoming × Modem :=
  let s := sendCommand (some "AT+HTTPREAD\r".toList) m
  let failed : Incoming × Modem := (⟨none, none⟩, { s.2 with m_state := HTTP_ERROR })
  if s.1 then
    match strstr s.2.m_buffer "+HTTPREAD: ".toList with
    | none => failed
    | some i =>
      let p := i + 11
      let bytes := atoi (s.2.m_buffer.drop p)
      match strchr (s.2.m_buffer.drop p) '\n' with
      | none => failed
      | some j =>
        let q := p + j + 1
        (⟨some q, some bytes⟩, { s.2 with m_buffer := store s.2.m_buffer ((q : Int) + bytes) NUL })
  else failed

/-- The function `HTTPClientSIM800::receive`. -/
def HTTPClientSIM800.receive (m : Modem) : Incoming × Modem :=
  match strstr m.m_buffer "+HTTPACTION:".toList with
  | some _ => HTTPClientSIM800.read m
  | none =>
    let s := sendCommand none m
    if !s.1 then (⟨none, none⟩, s.2) else HTTPClientSIM800.read s.2

/-- The function `HTTPClientSIM5360::open`. -/
def HTTPClientSIM5360.open (host : List Char) (port : Nat) (m : Modem) : Bool × Modem :=
  let s1 := sendCommand (some "AT+CHTTPSSTART\r".toList) m
  let cmd := sprintf "AT+CHTTPSOPSE=\"%s\",%u,1\r".toList [FmtArg.str host, FmtArg.uint port]
  let m1 := { s1.2 with m_buffer := sprintfBuf cmd s1.2.m_buffer }
  let s2 := sendCommand (some m1.m_buffer) m1
  if s2.1 then (true, { s2.2 with m_state := HTTP_CONNECTED })
  else (false, { s2.2 with m_state := HTTP_ERROR })

/-- The function `HTTPClientSIM5360::close`. -/
def HTTPClientSIM5360.close (m : Modem) : Modem :=
  { (sendCommand (some "AT+CHTTPSCLSE\r".toList) m).2 with m_state := HTTP_DISCONNECTED }

/-- The writes shared by the SIM5360 and SIM7600 `send`: the header generated into
`m_buffer`, the payload if the pointer is not null, then `m_buffer[0] = 0`. -/
def writeRequest (header : List Char) (payload : Option (List Char)) (m : Modem) : Modem :=
  let m1 := { m with m_buffer := sprintfBuf header m.m_buffer }
  let m2 := xbWrite m1.m_buffer m1
  let m3 := match payload with
    | some d => xbWrite d m2
    | none => m2
  { m3 with m_buffer := m3.m_buffer.set 0 NUL }

/-- The function `HTTPClientSIM5360::send`. -/
def HTTPClientSIM5360.send (method : HTTP_METHOD) (path : List Char) (keepAlive : Bool)
    (payload : Option (List Char)) (payloadSize : Int) (m : Modem) : Int × Modem :=
  let h := genHeader method path keepAlive payload payloadSize
  let headerSize := h.2
  let cmd := sprintf "AT+CHTTPSSEND=%u\r".toList
    [FmtArg.uint (toUnsigned ((headerSize : Int) + payloadSize))]
  let m1 := { m with m_buffer := sprintfBuf cmd (sprintfBuf h.1 m.m_buffer) }
  let s1 := sendCommand (some m1.m_buffer) m1
  if !s1.1 then (0, { s1.2 with m_state := HTTP_DISCONNECTED })
  else
    let s2 := sendCommand (some "AT+CHTTPSSEND\r".toList) (writeRequest h.1 payload s1.2)
    if s2.1 then (toInt32 ((headerSize : Int) + payloadSize), { s2.2 with m_state := HTTP_SENT })
    else (-1, { s2.2 with m_state := HTTP_ERROR })

/-- The tail shared by the SIM5360 and SIM7600 `receive`: with `p` the offset at which the
byte count is read, take the count, place `payload` behind the next line feed if there
is one, and store the terminating NUL when the count is below the room left in a buffer
of `bufSize` bytes (a signed comparison). -/
def cutBody (bufSize : Nat) (p : Nat) (payloadFallback : Nat) (m_buffer : List Char) :
    Int × Nat × List Char :=
  let received := atoi (m_buffer.drop p)
  let payload : Nat := match strchr (m_buffer.drop payloadFallback) '\n' with
    | some j => payloadFallback + j + 1
    | none => payloadFallback
  let buf := if (bufSize : Int) - (payload : Int) > received then
      store m_buffer ((payload : Int) + received) NUL
    else m_buffer
  (received, payload, buf)

/-- The function `HTTPClientSIM5360::receive`; `bufSize` is `sizeof(m_buffer)`. The
`checkGPS()` calls only read the buffer. -/
def HTTPClientSIM5360.receive (bufSize : Nat) (m : Modem) : Incoming × Modem :=
  let fetch (m0 : Modem) : Incoming × Modem :=
    let cmd := sprintf "AT+CHTTPSRECV=%u\r".toList
      [FmtArg.uint (toUnsigned ((bufSize : Int) - 36))]
    let m1 := { m0 with m_buffer := sprintfBuf cmd m0.m_buffer }
    let s := sendCommand (some m1.m_buffer) m1
    let r : Int × Nat × List Char :=
      if s.1 then
        match strstr s.2.m_buffer "+CHTTPSRECV:".toList with
        | none => (0, 0, s.2.m_buffer)
        | some i =>
          match strchr (s.2.m_buffer.drop i) ',' with
          | none => (0, 0, s.2.m_buffer)
          | some j => cutBody bufSize (i + j + 1) (i + j) s.2.m_buffer
      else (0, 0, s.2.m_buffer)
    if r.1 = 0 then (⟨none, none⟩, { s.2 with m_buffer := r.2.2, m_state := HTTP_ERROR })
    else (⟨some r.2.1, some r.1⟩, { s.2 with m_buffer := r.2.2, m_state := HTTP_CONNECTED })
  match strstr m.m_buffer "+CHTTPS: RECV EVENT".toList with
  | some _ => fetch m
  | none =>
    let s := sendCommand none m
    if !s.1 then (⟨none, none⟩, s.2) else fetch s.2

/-- The function `HTTPClientSIM7600::open`. -/
def HTTPClientSIM7600.open (host : List Char) (port : Nat) (m : Modem) : Bool × Modem :=
  let cmd := sprintf "AT+CHTTPACT=\"%s\",%u\r".toList [FmtArg.str host, FmtArg.uint port]
  let m1 := { m with m_buffer := sprintfBuf cmd m.m_buffer }
  let s := sendCommand (some m1.m_buffer) m1
  if s.1 then (true, { s.2 with m_state := HTTP_CONNECTED })
  else (false, { s.2 with m_state := HTTP_ERROR })

/-- The function `HTTPClientSIM7600::close`. -/
def HTTPClientSIM7600.close (m : Modem) : Modem :=
  { m with m_state := HTTP_DISCONNECTED }

/-- The function `HTTPClientSIM7600::send`. -/
def HTTPClientSIM7600.send (method : HTTP_METHOD) (path : List Char) (keepAlive : Bool)
    (payload : Option (List Char)) (payloadSize : Int) (m : Modem) : Int × Modem :=
  let h := genHeader method path keepAlive payload payloadSize
  let headerSize := toInt32 h.2
  let s := sendCommand (some "\x1a".toList) (writeRequest h.1 payload m)
  if s.1 then (toInt32 (headerSize + payloadSize), { s.2 with m_state := HTTP_SENT })
  else (-1, { s.2 with m_state := HTTP_ERROR })

/-- The function `HTTPClientSIM7600::receive`; `bufSize` is `sizeof(m_buffer)`. A reply that
carries data leaves the state `HTTP_DISCONNECTED`. -/
def HTTPClientSIM7600.receive (bufSize : Nat) (m : Modem) : Incoming × Modem :=
  let s := sendCommand none m
  let r : Int × Nat × List Char :=
    if s.1 then
      match strstr s.2.m_buffer "\r\n+CHTTPACT: DATA,".toList with
      | none => (0, 0, s.2.m_buffer)
      | some i => cutBody bufSize (i + 18) (i + 18) s.2.m_buffer
    else (0, 0, s.2.m_buffer)
  if r.1 = 0 then (⟨none, none⟩, { s.2 with m_buffer := r.2.2, m_state := HTTP_ERROR })
  else (⟨some r.2.1, some r.1⟩, { s.2 with m_buffer := r.2.2, m_state := HTTP_DISCONNECTED })

/-- The outcome the connection state machine of the specification allows for `send`,
given the count returned and the state afterwards: a positive count with the state
`HTTP_SENT`, or a count that is not positive with `HTTP_ERROR` or `HTTP_DISCONNECTED`. -/
def SendOutcome (count : Int) (state : HTTP_STATES) : Prop :=
  (0 < count ∧ state = HTTP_SENT) ∨
  (¬ 0 < count ∧ (state = HTTP_ERROR ∨ state = HTTP_DISCONNECTED))

/-! ## `ClientSIM5360::parseDegree` -/

/-- The parse shared word for word by `ClientSIM800::getSignal` and
`ClientSIM5360::getSignal` once `AT+CSQ` has been answered: skip two bytes from the first
colon, take `atoi` there times 10 as an `int`, and when a decimal point follows add the
byte behind it minus `'0'` (`char` is unsigned on the target; a read at the end of the
list sees the terminator). Without a colon the result is -1. -/
def parseSignal (m_buffer : List Char) : Int :=
  match strchr m_buffer ':' with
  | none => -1
  | some i =>
    let p := i + 2
    let db := toInt32 (atoi (m_buffer.drop p) * 10)
    match strchr (m_buffer.drop p) '.' with
    | none => db
    | some j => toInt32 (db + (((m_buffer.getD (p + j + 1) NUL).toNat : Int) - 48))

/-- The function `ClientSIM800::getSignal`. -/
def ClientSIM800.getSignal (m : Modem) : Int × Modem :=
  let s := sendCommand (some "AT+CSQ\r".toList) m
  if s.1 then (parseSignal s.2.m_buffer, s.2) else (-1, s.2)

/-- The function `ClientSIM5360::getSignal`, which `ClientSIM7600` inherits. -/
def ClientSIM5360.getSignal (m : Modem) : Int × Modem :=
  let s := sendCommand (some "AT+CSQ\r".toList) m
  if s.1 then (parseSignal s.2.m_buffer, s.2) else (-1, s.2)

/-! ## The store index of `HTTPClientWIFI::receive` -/

/-- The index of the last store of the loop of `HTTPClientWIFI::receive`: each iteration
stores the byte read at `m_buffer[bytes++]` and then a NUL at `m_buffer[bytes]`, so after
the last iteration the highest index written is the number of bytes stored. Nothing is
written when no byte arrives. The loop compares `bytes` with nothing. -/
def HTTPClientWIFI.lastStoreIndex (incoming : List Char) : Option Nat :=
  if (HTTPClientWIFI.receiveLoop incoming []).2 = [] then none
  else some (HTTPClientWIFI.receiveLoop incoming []).2.length

/-! ## Module bring-up -/

/-- The members of a modem network client that `begin` touches, with the device behind
it: `m_stage` (0 before the serial port is opened, 1 once it is, 2 once the module
answers), the identity strings of `ClientSIM5360`, and the calls of `xbTogglePower` so
far: one entry per call, in order, giving the number of `xbWrite` calls made before it
(the length of `written` at that moment), which places the toggles among the commands.
The calls `xbBegin`, `delay` and `xbPurge` leave all of this as it is. -/
structure CellClient where
  modem : Modem
  m_stage : Nat
  m_model : List Char
  IMEI : List Char
  powerToggles : List Nat
  deriving DecidableEq, Repr

/-- The inner loop of `begin`: up to `rounds` probe rounds, left at the first one that
succeeds. -/
def probeLoop (probe : Modem → Bool × Modem) : Nat → Modem → Bool × Modem
  | 0, md => (false, md)
  | k + 1, md => if (probe md).1 then (true, (probe md).2) else probeLoop probe k (probe md).2

/-- The outer loop of `begin`: up to `attempts` times toggle the power, wait, purge and
run the inner loop; on the first successful probe round set `m_stage = 2`, do what the
variant does with the reply (`identify`) and return true. -/
def powerLoop (probe : Modem → Bool × Modem) (rounds : Nat) (identify : CellClient → CellClient) :
    Nat → CellClient → Bool × CellClient
  | 0, c => (false, c)
  | n + 1, c =>
    let c1 := { c with powerToggles := c.powerToggles ++ [c.modem.written.length] }
    let r := probeLoop probe rounds c1.modem
    if r.1 then (true, identify { c1 with modem := r.2, m_stage := 2 })
    else powerLoop probe rounds identify n { c1 with modem := r.2 }

/-- The start of `begin`: open the serial port on the first call. -/
def openPort (c : CellClient) : CellClient :=
  if c.m_stage = 0 then { c with m_stage := 1 } else c

/-- One probe round of `ClientSIM800::begin`: `sendCommand("AT\r")`. -/
def ClientSIM800.probe (md : Modem) : Bool × Modem :=
  sendCommand (some "AT\r".toList) md

/-- The function `ClientSIM800::begin`: 10 power attempts of 3 probe rounds each. -/
def ClientSIM800.begin (c : CellClient) : Bool × CellClient :=
  powerLoop ClientSIM800.probe 3 id 10 (openPort c)

/-- One probe round of `ClientSIM5360::begin`:
`sendCommand("AT\r") && sendCommand("ATE0\r") && sendCommand("ATI\r")`, each command sent
only when the one before was acknowledged. -/
def ClientSIM5360.probe (md : Modem) : Bool × Modem :=
  let s1 := sendCommand (some "AT\r".toList) md
  if s1.1 then
    let s2 := sendCommand (some "ATE0\r".toList) s1.2
    if s2.1 then sendCommand (some "ATI\r".toList) s2.2 else (false, s2.2)
  else (false, s1.2)

/-- What `ClientSIM5360::begin` keeps of the `ATI` reply: the model name behind the first
`_` after `Model:`, up to the end of the line and at most `modelSize - 1` bytes, and the
`IMEI` copied by `strncpy` from 6 bytes behind `IMEI:`, at most `imeiSize - 1` bytes.
`modelSize` and `imeiSize` are `sizeof(m_model)` and `sizeof(IMEI)`. -/
def ClientSIM5360.identify (modelSize imeiSize : Nat) (c : CellClient) : CellClient :=
  let buf := c.modem.m_buffer
  let c1 :=
    match strstr buf "Model:".toList with
    | none => c
    | some i =>
      match strchr (buf.drop i) '_' with
      | none => c
      | some j =>
        { c with m_model :=
            ((cstr (buf.drop (i + j + 1))).takeWhile
              (fun x => x ≠ '\r' && x ≠ '\n')).take (modelSize - 1) }
  match strstr buf "IMEI:".toList with
  | none => c1
  | some i => { c1 with IMEI := (cstr (buf.drop (i + 6))).take (imeiSize - 1) }

/-- The function `ClientSIM5360::begin`: 10 power attempts of 5 probe rounds each. -/
def ClientSIM5360.begin (modelSize imeiSize : Nat) (c : CellClient) : Bool × CellClient :=
  powerLoop ClientSIM5360.probe 5 (ClientSIM5360.identify modelSize imeiSize) 10 (openPort c)

/-- Index of the first probe round that succeeds among the next `k` rounds on a modem,
run one after the other. -/
def firstSuccess (probe : Modem → Bool × Modem) : Nat → Modem → Option Nat
  | 0, _ => none
  | k + 1, md =>
    if (probe md).1 then some 0 else (firstSuccess probe k (probe md).2).map (· + 1)

/-- The modem after `k` probe rounds run one after the other. -/
def afterRounds (probe : Modem → Bool × Modem) : Nat → Modem → Modem
  | 0, md => md
  | k + 1, md => afterRounds probe k (probe md).2

/-- The entries `n` power toggles leave in `powerToggles` when each toggle but the last
is followed by exactly `rounds` probe rounds: the first toggle comes before any probe,
the next one after `rounds` rounds, and so on. -/
def toggleTimes (probe : Modem → Bool × Modem) (rounds : Nat) : Nat → Modem → List Nat
  | 0, _ => []
  | n + 1, md => md.written.length :: toggleTimes probe rounds n (afterRounds probe rounds md)

/-! ## Theorems -/

/-! ### Header framing -/

theorem splitLF_append_lf (a b : List Char) (h : '\n' ∉ a) :
    splitLF (a ++ '\n' :: b) = a :: splitLF b := by
  induction a with
  | nil => simp [splitLF]
  | cons c cs ih =>
    simp only [List.mem_cons, not_or] at h
    have hc : c ≠ '\n' := fun e => h.1 e.symm
    simp [splitLF, hc, ih h.2]

theorem digitChar_ne_lf (d : Nat) (hd : d < 10) : Nat.digitChar d ≠ '\n' := by
  revert d; decide

theorem toDigitsCore_no_lf (f : Nat) : ∀ (n : Nat) (ds : List Char),
    '\n' ∉ ds → '\n' ∉ Nat.toDigitsCore 10 f n ds := by
  induction f with
  | zero => intro n ds h; simpa [Nat.toDigitsCore] using h
  | succ f ih =>
    intro n ds h
    have hd : '\n' ≠ Nat.digitChar (n % 10) :=
      fun e => digitChar_ne_lf (n % 10) (Nat.mod_lt _ (by decide)) e.symm
    have h2 : '\n' ∉ Nat.digitChar (n % 10) :: ds := by
      simp only [List.mem_cons, not_or]; exact ⟨hd, h⟩
    simp only [Nat.toDigitsCore]
    split
    · exact h2
    · exact ih _ _ h2

theorem toDigits_no_lf (n : Nat) : '\n' ∉ Nat.toDigits 10 n :=
  toDigitsCore_no_lf _ _ _ (by simp)

theorem header_lines (method : HTTP_METHOD) (path : List Char) (keepAlive : Bool)
    (payload : Option (List Char)) (payloadSize : Int) (hpath : '\n' ∉ path) :
    splitLF (genHeader method path keepAlive payload payloadSize).1 =
      [(match method with | HTTP_GET => "GET".toList | HTTP_POST => "POST".toList)
        ++ " ".toList ++ path ++ " HTTP/1.1\r".toList,
       "Connection: ".toList ++ (if keepAlive then "keep-alive".toList else "close".toList) ++ "\r".toList]
      ++ (match method with
            | HTTP_GET => []
            | HTTP_POST => [contentLengthLine (toUnsigned payloadSize)])
      ++ ["\r".toList, []] := by
  have hd := toDigits_no_lf (toUnsigned payloadSize)
  cases method <;> cases keepAlive
  · have e : (genHeader HTTP_GET path false payload payloadSize).1 =
        ("GET ".toList ++ path ++ " HTTP/1.1\r".toList) ++ '\n' ::
          ("Connection: close\r".toList ++ '\n' :: ("\r".toList ++ '\n' :: [])) := by
      simp [genHeader, sprintf]
    rw [e, splitLF_append_lf _ _ (by simp [hpath]), splitLF_append_lf _ _ (by decide),
      splitLF_append_lf _ _ (by decide)]
    simp [splitLF]
  · have e : (genHeader HTTP_GET path true payload payloadSize).1 =
        ("GET ".toList ++ path ++ " HTTP/1.1\r".toList) ++ '\n' ::
          ("Connection: keep-alive\r".toList ++ '\n' :: ("\r".toList ++ '\n' :: [])) := by
      simp [genHeader, sprintf]
    rw [e, splitLF_append_lf _ _ (by simp [hpath]), splitLF_append_lf _ _ (by decide),
      splitLF_append_lf _ _ (by decide)]
    simp [splitLF]
  · have e : (genHeader HTTP_POST path false payload payloadSize).1 =
        ("POST ".toList ++ path ++ " HTTP/1.1\r".toList) ++ '\n' ::
          ("Connection: close\r".toList ++ '\n' ::
            (contentLengthLine (toUnsigned payloadSize) ++ '\n' :: ("\r".toList ++ '\n' :: []))) := by
      simp [genHeader, sprintf, contentLengthLine]
    rw [e, splitLF_append_lf _ _ (by simp [hpath]), splitLF_append_lf _ _ (by decide),
      splitLF_append_lf _ _ (by simp [contentLengthLine, hd]), splitLF_append_lf _ _ (by decide)]
    simp [splitLF]
  · have e : (genHeader HTTP_POST path true payload payloadSize).1 =
        ("POST ".toList ++ path ++ " HTTP/1.1\r".toList) ++ '\n' ::
          ("Connection: keep-alive\r".toList ++ '\n' ::
            (contentLengthLine (toUnsigned payloadSize) ++ '\n' :: ("\r".toList ++ '\n' :: []))) := by
      simp [genHeader, sprintf, contentLengthLine]
    rw [e, splitLF_append_lf _ _ (by simp [hpath]), splitLF_append_lf _ _ (by decide),
      splitLF_append_lf _ _ (by simp [contentLengthLine, hd]), splitLF_append_lf _ _ (by decide)]
    simp [splitLF]

/-- C2. The bytes `genHeader` writes are `<METHOD> <path> HTTP/1.1\r\nConnection: ` followed
by `keep-alive` or `close` and `\r\n`, then the Content-length line (written for a POST,
with the payload size printed as an unsigned number), then the blank line `\r\n`; the
value returned is the number of these bytes. -/
theorem genHeader_bytes (method : HTTP_METHOD) (path : List Char) (keepAlive : Bool)
    (payload : Option (List Char)) (payloadSize : Int) :
    (genHeader method path keepAlive payload payloadSize).1 =
      (match method with
        | HTTP_GET => "GET".toList
        | HTTP_POST => "POST".toList)
        ++ " ".toList ++ path ++ " HTTP/1.1\r\nConnection: ".toList
        ++ (if keepAlive then "keep-alive".toList else "close".toList) ++ "\r\n".toList
        ++ (match method with
            | HTTP_GET => []
            | HTTP_POST =>
              "Content-length: ".toList ++ Nat.toDigits 10 (toUnsigned payloadSize)
                ++ "\r\n".toList)
        ++ "\r\n".toList
      ∧ (genHeader method path keepAlive payload payloadSize).2 =
        (genHeader method path keepAlive payload payloadSize).1.length := by
  cases method <;> cases keepAlive <;> simp [genHeader, sprintf] <;> omega

/-- C1 (amended). For a path without a line feed, the header `genHeader` produces has a
line starting with `Content-length: ` if and only if the method is POST, whatever the
payload size (0 included); such a line is `Content-length: <n>` with `n` the payload
size converted to `unsigned`, which is the payload size itself when that is not
negative. A GET request never has the line. -/
theorem genHeader_content_length (method : HTTP_METHOD) (path : List Char) (keepAlive : Bool)
    (payload : Option (List Char)) (payloadSize : Int) (hpath : '\n' ∉ path) :
    (hasContentLength (genHeader method path keepAlive payload payloadSize).1 = true
        ↔ method = HTTP_POST)
    ∧ (∀ l ∈ splitLF (genHeader method path keepAlive payload payloadSize).1,
        "Content-length: ".toList.isPrefixOf l = true →
          l = contentLengthLine (toUnsigned payloadSize))
    ∧ (0 ≤ payloadSize → payloadSize < 4294967296 →
        (toUnsigned payloadSize : Int) = payloadSize) := by
  refine ⟨?_, ?_, ?_⟩
  · rw [hasContentLength, header_lines method path keepAlive payload payloadSize hpath]
    cases method <;> cases keepAlive <;> simp [contentLengthLine]
  · rw [header_lines method path keepAlive payload payloadSize hpath]
    cases method <;> cases keepAlive <;> simp [contentLengthLine]
  · intro h0 h1
    unfold toUnsigned
    rw [Int.emod_eq_of_lt h0 h1]
    exact Int.toNat_of_nonneg h0

theorem genHeader_content_length_witness :
    '\n' ∉ "/push".toList ∧
    (hasContentLength (genHeader HTTP_POST "/push".toList true (some "abc".toList) 3).1 = true
        ↔ HTTP_POST = HTTP_POST) :=
  ⟨by decide,
    (genHeader_content_length HTTP_POST "/push".toList true (some "abc".toList) 3
      (by decide)).1⟩

/-- C1 as stated fails for a POST with payload size 0: the header has the line
`Content-length: 0`. -/
theorem genHeader_content_length_post_empty :
    contentLengthLine 0 ∈ splitLF (genHeader HTTP_POST "/".toList false none 0).1 ∧
    ¬ (hasContentLength (genHeader HTTP_POST "/".toList false none 0).1 = true
        ↔ (HTTP_POST = HTTP_POST ∧ (0 : Int) < 0)) := by
  decide

/-! ### C strings -/

theorem cstr_append_of_no_nul (a b : List Char) (h : NUL ∉ a) : cstr (a ++ b) = a ++ cstr b := by
  induction a with
  | nil => rfl
  | cons c cs ih =>
    simp only [List.mem_cons, not_or] at h
    have hc : c ≠ NUL := fun e => h.1 e.symm
    simp [cstr, hc, ih h.2]

theorem cstr_of_no_nul (a : List Char) (h : NUL ∉ a) : cstr a = a := by
  have := cstr_append_of_no_nul a [] h
  simpa [cstr] using this

theorem cstr_append_nul (a b : List Char) (h : NUL ∉ a) : cstr (a ++ NUL :: b) = a := by
  rw [cstr_append_of_no_nul a _ h]; simp [cstr]

theorem findSub_IPD (pre rest : List Char) (h : ¬ "+IPD".toList <:+: pre) :
    findSub "+IPD".toList (pre ++ "+IPD".toList ++ rest) = some pre.length := by
  induction pre with
  | nil => simp [findSub, List.isPrefixOf]
  | cons c cs ih =>
    have h2 : ¬ "+IPD".toList <:+: cs := fun hh => h (hh.trans (List.suffix_cons c cs).isInfix)
    have h3 : ("+IPD".toList).isPrefixOf (c :: (cs ++ "+IPD".toList ++ rest)) = false := by
      rcases cs with _ | ⟨c2, _ | ⟨c3, _ | ⟨c4, cs⟩⟩⟩
      · simp [List.isPrefixOf]
      · simp [List.isPrefixOf]
      · simp [List.isPrefixOf]
      · by_contra hp
        simp [List.isPrefixOf] at hp
        obtain ⟨rfl, rfl, rfl, rfl⟩ := hp
        exact h ⟨[], cs, by simp⟩
    show findSub "+IPD".toList (c :: (cs ++ "+IPD".toList ++ rest)) = some (cs.length + 1)
    rw [findSub, h3, ih h2]
    rfl

theorem digitChar_isdigit (d : Nat) (hd : d < 10) :
    isdigit (Nat.digitChar d) = true ∧ (Nat.digitChar d).toNat - 48 = d := by
  revert d; decide

theorem isdigit_ne (c : Char) (h : isdigit c = true) :
    c ≠ NUL ∧ c ≠ '\n' ∧ c ≠ '-' ∧ c ≠ '+' ∧ c ≠ '.' ∧ isspace c = false := by
  refine ⟨?_, ?_, ?_, ?_, ?_, ?_⟩
  · rintro rfl; revert h; decide
  · rintro rfl; revert h; decide
  · rintro rfl; revert h; decide
  · rintro rfl; revert h; decide
  · rintro rfl; revert h; decide
  · simp only [isspace, Bool.or_eq_false_iff, decide_eq_false_iff_not]
    refine ⟨⟨⟨⟨⟨?_, ?_⟩, ?_⟩, ?_⟩, ?_⟩, ?_⟩ <;> (rintro rfl; revert h; decide)

/-- Left-to-right accumulation of a run of digits. -/
theorem digitsValue_append (pre rest : List Char) (h : ∀ c ∈ pre, isdigit c = true) :
    ∀ acc, digitsValue acc (pre ++ rest) =
      digitsValue (pre.foldl (fun a c => a * 10 + (c.toNat - 48)) acc) rest := by
  induction pre with
  | nil => intro acc; rfl
  | cons c cs ih =>
    intro acc
    have hc := h c (List.mem_cons_self _ _)
    simp only [List.cons_append, digitsValue, hc, if_true, List.foldl_cons]
    exact ih (fun x hx => h x (List.mem_cons_of_mem _ hx)) _

theorem toDigitsCore_spec (f : Nat) : ∀ (n : Nat) (ds : List Char), n < f →
    ∃ pre, Nat.toDigitsCore 10 f n ds = pre ++ ds ∧ pre ≠ [] ∧
      (∀ c ∈ pre, isdigit c = true) ∧
      ∀ acc, pre.foldl (fun a c => a * 10 + (c.toNat - 48)) acc = acc * 10 ^ pre.length + n := by
  induction f with
  | zero => intro n ds h; omega
  | succ f ih =>
    intro n ds h
    have hd := digitChar_isdigit (n % 10) (Nat.mod_lt _ (by decide))
    simp only [Nat.toDigitsCore]
    split
    · rename_i h0
      refine ⟨[Nat.digitChar (n % 10)], rfl, by simp, ?_, ?_⟩
      · intro c hc; simp only [List.mem_singleton] at hc; subst hc; exact hd.1
      · intro acc
        simp only [List.foldl_cons, List.foldl_nil, hd.2, List.length_singleton, pow_one]
        omega
    · rename_i h0
      have hlt : n / 10 < f := by omega
      obtain ⟨pre, e, _, hdig, hval⟩ := ih (n / 10) (Nat.digitChar (n % 10) :: ds) hlt
      refine ⟨pre ++ [Nat.digitChar (n % 10)], by simp [e], by simp, ?_, ?_⟩
      · intro c hc
        simp only [List.mem_append, List.mem_singleton] at hc
        rcases hc with hc | hc
        · exact hdig c hc
        · subst hc; exact hd.1
      · intro acc
        simp only [List.foldl_append, List.foldl_cons, List.foldl_nil, hval, hd.2,
          List.length_append, List.length_singleton, pow_succ]
        have := Nat.div_add_mod n 10
        nlinarith [this]

theorem toDigits_spec (n : Nat) :
    Nat.toDigits 10 n ≠ [] ∧ (∀ c ∈ Nat.toDigits 10 n, isdigit c = true) ∧
      ∀ rest, (∀ c ∈ rest.head?, isdigit c = false) →
        digitsValue 0 (Nat.toDigits 10 n ++ rest) = n := by
  obtain ⟨pre, e, hne, hdig, hval⟩ := toDigitsCore_spec (n + 1) n [] (Nat.lt_succ_self n)
  have e2 : Nat.toDigits 10 n = pre := by simpa [Nat.toDigits] using e
  rw [e2]
  refine ⟨hne, hdig, ?_⟩
  intro rest hrest
  rw [digitsValue_append pre rest hdig, hval]
  cases rest with
  | nil => simp [digitsValue]
  | cons c cs =>
    have : isdigit c = false := hrest c (by simp)
    simp [digitsValue, this]

theorem atoi_toDigits (n : Nat) (hn : n < 2147483648) (rest : List Char)
    (hrest : ∀ c ∈ rest.head?, isdigit c = false) :
    atoi (Nat.toDigits 10 n ++ rest) = n := by
  obtain ⟨hne, hdig, hval⟩ := toDigits_spec n
  have hnul : NUL ∉ Nat.toDigits 10 n := fun hm => (isdigit_ne _ (hdig _ hm)).1 rfl
  have hv := hval (cstr rest) (by
    cases rest with
    | nil => simp [cstr]
    | cons c cs =>
      have hc : isdigit c = false := hrest c (by simp)
      by_cases hcn : c = NUL
      · simp [cstr, hcn]
      · simpa [cstr, hcn] using hc)
  unfold atoi
  rw [cstr_append_of_no_nul _ _ hnul]
  cases hd : Nat.toDigits 10 n with
  | nil => exact absurd hd hne
  | cons c cs =>
    rw [hd] at hv hdig
    have hc := isdigit_ne c (hdig c (List.mem_cons_self _ _))
    have hs : skipSpace (c :: cs ++ cstr rest) = c :: cs ++ cstr rest := by
      simp [skipSpace, hc.2.2.2.2.2]
    rw [hs]
    have : (match (c :: cs ++ cstr rest) with
        | '-' :: cs => - (digitsValue 0 cs : Int)
        | '+' :: cs => (digitsValue 0 cs : Int)
        | cs => (digitsValue 0 cs : Int)) = (digitsValue 0 (c :: cs ++ cstr rest) : Int) := by
      split
      · rename_i heq; simp at heq; exact absurd heq.1 hc.2.2.1
      · rename_i heq; simp at heq; exact absurd heq.1 hc.2.2.2.1
      · rfl
    rw [this, hv]
    unfold clampInt
    omega


theorem set_append_length (a b : List Char) (x y : Char) :
    (a ++ x :: b).set a.length y = a ++ y :: b := by
  induction a with
  | nil => rfl
  | cons c cs ih => simp [ih]

theorem drop_append_length (a b : List Char) (k : Nat) :
    (a ++ b).drop (a.length + k) = b.drop k := by
  induction a with
  | nil => simp
  | cons c cs ih =>
    have : (c :: cs).length + k = (cs.length + k) + 1 := by simp; omega
    rw [this]; simp

theorem drop_of_eq_length (a b : List Char) (k : Nat) (hk : k = a.length) :
    (a ++ b).drop k = b := by
  subst hk; simp

theorem findChar_append (c : Char) (a b : List Char) (h : c ∉ a) :
    findChar c (a ++ c :: b) = some a.length := by
  induction a with
  | nil => simp [findChar]
  | cons x xs ih =>
    simp only [List.mem_cons, not_or] at h
    have hx : x ≠ c := fun e => h.1 e.symm
    simp [findChar, hx, ih h.2]

theorem toUnsigned_natCast (n : Nat) (hn : n < 4294967296) : toUnsigned (n : Int) = n := by
  unfold toUnsigned
  rw [Int.emod_eq_of_lt (by omega) (by omega)]
  simp

theorem checkIncomingIPD_extracts (n : Nat) (pre payload trailer : List Char)
    (hpre : ¬ "+IPD".toList <:+: pre) (hnul : NUL ∉ pre)
    (hlen : payload.length = n) (hpay : NUL ∉ payload) (htr : NUL ∉ trailer)
    (hn : n < 2147483648) :
    checkIncomingIPD
        (pre ++ "+IPD".toList ++ Nat.toDigits 10 n ++ ['\n'] ++ payload ++ trailer)
      = (⟨some (pre.length + 4 + (Nat.toDigits 10 n).length + 1), some (n : Int)⟩,
          pre ++ "-IPD".toList ++ Nat.toDigits 10 n ++ ['\n'] ++ payload ++
            cutTrailer trailer) := by
  obtain ⟨hne, hdig, -⟩ := toDigits_spec n
  have hdnul : NUL ∉ Nat.toDigits 10 n := fun hm => (isdigit_ne _ (hdig _ hm)).1 rfl
  have hdlf : '\n' ∉ Nat.toDigits 10 n := fun hm => (isdigit_ne _ (hdig _ hm)).2.1 rfl
  set ds := Nat.toDigits 10 n with hds
  -- the C string in the buffer is the whole buffer
  have hall : NUL ∉ pre ++ "+IPD".toList ++ ds ++ ['\n'] ++ payload ++ trailer := by
    simp only [List.mem_append, not_or]
    exact ⟨⟨⟨⟨⟨hnul, by decide⟩, hdnul⟩, by decide⟩, hpay⟩, htr⟩
  have hfind : strstr (pre ++ "+IPD".toList ++ ds ++ ['\n'] ++ payload ++ trailer) "+IPD".toList
      = some pre.length := by
    unfold strstr
    rw [cstr_of_no_nul _ hall]
    have := findSub_IPD pre (ds ++ ['\n'] ++ payload ++ trailer) hpre
    simpa [List.append_assoc] using this
  have hbuf1 : (pre ++ "+IPD".toList ++ ds ++ ['\n'] ++ payload ++ trailer).set pre.length '-'
      = pre ++ ('-' :: ("IPD".toList ++ ds ++ '\n' :: (payload ++ trailer))) := by
    simp [List.append_assoc]
  have hatoi : atoi ((pre ++ ('-' :: ("IPD".toList ++ ds ++ '\n' :: (payload ++ trailer)))).drop
      (pre.length + 4)) = n := by
    rw [drop_append_length]
    have := atoi_toDigits n hn ('\n' :: (payload ++ trailer)) (by simp; decide)
    simpa [List.append_assoc] using this
  have hchr : strchr ((pre ++ ('-' :: ("IPD".toList ++ ds ++ '\n' :: (payload ++ trailer)))).drop
      pre.length) '\n' = some (4 + ds.length) := by
    have h0 := drop_append_length pre ('-' :: ("IPD".toList ++ ds ++ '\n' :: (payload ++ trailer))) 0
    simp only [Nat.add_zero, List.drop_zero] at h0
    rw [h0]
    unfold strchr
    have hn2 : NUL ∉ ('-' :: ("IPD".toList ++ ds ++ '\n' :: (payload ++ trailer))) := by
      simp only [List.mem_cons, List.mem_append, not_or]
      exact ⟨by decide, ⟨⟨by decide, hdnul⟩, by decide, hpay, htr⟩⟩
    rw [cstr_of_no_nul _ hn2]
    have := findChar_append '\n' ('-' :: ("IPD".toList ++ ds)) (payload ++ trailer) (by
      simp only [List.mem_cons, List.mem_append, not_or]
      exact ⟨by decide, by decide, hdlf⟩)
    have e : ('-' :: ("IPD".toList ++ ds)) ++ '\n' :: (payload ++ trailer)
        = '-' :: ("IPD".toList ++ ds ++ '\n' :: (payload ++ trailer)) := by simp
    rw [e] at this
    rw [this]
    simp only [List.length_cons, List.length_append, Option.some.injEq]
    simp
    omega
  have hdrop : (pre ++ ('-' :: ("IPD".toList ++ ds ++ '\n' :: (payload ++ trailer)))).drop
      (pre.length + (4 + ds.length) + 1) = payload ++ trailer := by
    have e : pre ++ ('-' :: ("IPD".toList ++ ds ++ '\n' :: (payload ++ trailer)))
        = (pre ++ ('-' :: ("IPD".toList ++ ds ++ ['\n']))) ++ (payload ++ trailer) := by simp
    rw [e]
    apply drop_of_eq_length
    simp
    omega
  have hstrlen : strlen (payload ++ trailer) = n + trailer.length := by
    unfold strlen
    rw [cstr_of_no_nul _ (by simp [hpay, htr])]
    simp [hlen]
  unfold checkIncomingIPD
  simp only [hfind, hbuf1, hatoi, hchr, hdrop, hstrlen, toUnsigned_natCast n (by omega)]
  cases trailer with
  | nil =>
    simp [cutTrailer]
    omega
  | cons t0 t =>
    have hidx : (((pre.length + (4 + ds.length) + 1 : Nat) : Int) + (n : Int)).toNat
        = (pre ++ ('-' :: ("IPD".toList ++ ds ++ '\n' :: payload))).length := by
      simp [hlen]
      omega
    have hset := set_append_length (pre ++ ('-' :: ("IPD".toList ++ ds ++ '\n' :: payload))) t t0 NUL
    simp only [List.length_cons, gt_iff_lt, lt_add_iff_pos_right, Nat.zero_lt_succ, if_true]
    rw [hidx]
    simp only [List.append_assoc, List.cons_append] at hset ⊢
    simp [hset, cutTrailer]
    omega

/-! ### A consumed marker is not found again -/

theorem isPrefixOf_set (needle : List Char) (c : Char) : ∀ (xs : List Char) (i : Nat),
    needle.isPrefixOf (xs.set i c) = true → needle.isPrefixOf xs = true ∨ c ∈ needle := by
  induction needle with
  | nil => intro xs i _; left; simp [List.isPrefixOf]
  | cons a as ih =>
    intro xs i h
    cases xs with
    | nil => simp [List.isPrefixOf] at h
    | cons x xs =>
      cases i with
      | zero =>
        simp only [List.set_cons_zero, List.isPrefixOf, Bool.and_eq_true, beq_iff_eq] at h
        right; simp [h.1]
      | succ i =>
        simp only [List.set_cons_succ, List.isPrefixOf, Bool.and_eq_true, beq_iff_eq] at h
        rcases ih xs i h.2 with h2 | h2
        · left; simp [List.isPrefixOf, h.1, h2]
        · right; simp [h2]

theorem isPrefixOf_take (needle : List Char) : ∀ (xs : List Char) (k : Nat),
    needle.isPrefixOf (xs.take k) = true → needle.isPrefixOf xs = true := by
  induction needle with
  | nil => intro xs k _; simp [List.isPrefixOf]
  | cons a as ih =>
    intro xs k h
    cases xs with
    | nil => simp [List.isPrefixOf] at h
    | cons x xs =>
      cases k with
      | zero => simp [List.isPrefixOf] at h
      | succ k =>
        simp only [List.take_succ_cons, List.isPrefixOf, Bool.and_eq_true, beq_iff_eq] at h
        simp [List.isPrefixOf, h.1, ih xs k h.2]

theorem occurrences_set_first (needle : List Char) (hne : needle ≠ []) (hc : '-' ∉ needle) :
    ∀ (s : List Char) (i : Nat), findSub needle s = some i → occurrences needle s ≤ 1 →
      occurrences needle (s.set i '-') = 0 := by
  intro s
  induction s with
  | nil => intro i h; simp [findSub, hne] at h
  | cons x xs ih =>
    intro i h hocc
    cases hp : needle.isPrefixOf (x :: xs) with
    | true =>
      simp only [findSub, hp, if_true, Option.some.injEq] at h
      subst h
      simp only [occurrences, hp, if_true] at hocc
      have hxs : occurrences needle xs = 0 := by omega
      have hnot : needle.isPrefixOf ('-' :: xs) = false := by
        cases needle with
        | nil => exact absurd rfl hne
        | cons a as =>
          have : a ≠ '-' := fun e => hc (by simp [e])
          simp [List.isPrefixOf, this]
      simp [occurrences, hnot, hxs]
    | false =>
      simp only [findSub, hp, Bool.false_eq_true, if_false] at h
      cases hf : findSub needle xs with
      | none => simp [hf] at h
      | some j =>
        simp only [hf, Option.map_some', Option.some.injEq] at h
        subst h
        simp only [occurrences, hp, Bool.false_eq_true, if_false, Nat.zero_add] at hocc
        have hrest := ih j hf hocc
        have hnot : needle.isPrefixOf (x :: xs.set j '-') = false := by
          cases hh : needle.isPrefixOf (x :: xs.set j '-') with
          | false => rfl
          | true =>
            have := isPrefixOf_set needle '-' (x :: xs) (j + 1) (by simpa using hh)
            rcases this with h1 | h1
            · rw [hp] at h1; exact absurd h1 (by decide)
            · exact absurd h1 hc
        simp [occurrences, hnot, hrest]

theorem findSub_lt (needle : List Char) (hne : needle ≠ []) :
    ∀ (s : List Char) (i : Nat), findSub needle s = some i → i < s.length := by
  intro s
  induction s with
  | nil => intro i h; simp [findSub, hne] at h
  | cons x xs ih =>
    intro i h
    cases hp : needle.isPrefixOf (x :: xs) with
    | true =>
      simp only [findSub, hp, if_true, Option.some.injEq] at h
      subst h; simp
    | false =>
      simp only [findSub, hp, Bool.false_eq_true, if_false] at h
      cases hf : findSub needle xs with
      | none => simp [hf] at h
      | some j =>
        simp only [hf, Option.map_some', Option.some.injEq] at h
        subst h
        have := ih j hf
        simp; omega

theorem findSub_none_of_occurrences (needle : List Char) (hne : needle ≠ []) :
    ∀ (s : List Char), occurrences needle s = 0 → findSub needle s = none := by
  intro s
  induction s with
  | nil => intro _; simp [findSub, hne]
  | cons x xs ih =>
    intro h
    cases hp : needle.isPrefixOf (x :: xs) with
    | true => simp [occurrences, hp] at h
    | false =>
      simp only [occurrences, hp, Bool.false_eq_true, if_false, Nat.zero_add] at h
      simp [findSub, hp, ih h]

theorem occurrences_take (needle : List Char) : ∀ (s : List Char) (k : Nat),
    occurrences needle (s.take k) ≤ occurrences needle s := by
  intro s
  induction s with
  | nil => intro k; simp [occurrences]
  | cons x xs ih =>
    intro k
    cases k with
    | zero => simp [occurrences]
    | succ k =>
      have h1 := ih k
      cases hp : needle.isPrefixOf (x :: xs.take k) with
      | true =>
        have := isPrefixOf_take needle (x :: xs) (k + 1) (by simpa using hp)
        simp only [List.take_succ_cons, occurrences, hp, this, if_true]
        omega
      | false =>
        simp only [List.take_succ_cons, occurrences, hp, Bool.false_eq_true, if_false]
        split <;> omega

theorem cstr_set (c : Char) (hc : c ≠ NUL) : ∀ (b : List Char) (i : Nat),
    i < (cstr b).length → cstr (b.set i c) = (cstr b).set i c := by
  intro b
  induction b with
  | nil => intro i h; simp [cstr] at h
  | cons x xs ih =>
    intro i h
    by_cases hx : x = NUL
    · simp [cstr, hx] at h
    · cases i with
      | zero => simp [cstr, hx, hc]
      | succ i =>
        simp only [cstr, hx, if_false, List.length_cons, Nat.add_lt_add_iff_right] at h
        simp [cstr, hx, ih i h]

theorem cstr_set_nul : ∀ (b : List Char) (k : Nat), cstr (b.set k NUL) = (cstr b).take k := by
  intro b
  induction b with
  | nil => intro k; simp [cstr]
  | cons x xs ih =>
    intro k
    cases k with
    | zero => simp [cstr]
    | succ k =>
      by_cases hx : x = NUL
      · simp [cstr, hx]
      · simp [cstr, hx, ih k]

theorem occurrences_of_findSub_none (needle : List Char) :
    ∀ (s : List Char), findSub needle s = none → occurrences needle s = 0 := by
  intro s
  induction s with
  | nil => intro _; rfl
  | cons x xs ih =>
    intro h
    cases hp : needle.isPrefixOf (x :: xs) with
    | true => simp [findSub, hp] at h
    | false =>
      simp only [findSub, hp, Bool.false_eq_true, if_false, Option.map_eq_none'] at h
      simp [occurrences, hp, ih h]

theorem occurrences_after_mark (needle : List Char) (hne : needle ≠ []) (hc : '-' ∉ needle)
    (b : List Char) (i : Nat) (h : strstr b needle = some i)
    (hocc : occurrences needle (cstr b) ≤ 1) :
    occurrences needle (cstr (b.set i '-')) = 0 ∧
      ∀ k, occurrences needle (cstr ((b.set i '-').set k NUL)) = 0 := by
  unfold strstr at h
  have hlt := findSub_lt needle hne _ _ h
  have h0 := occurrences_set_first needle hne hc _ _ h hocc
  rw [← cstr_set '-' (by decide) b i hlt] at h0
  refine ⟨h0, fun k => ?_⟩
  rw [cstr_set_nul]
  have := occurrences_take needle (cstr (b.set i '-')) k
  omega

theorem checkIncomingIPD_no_marker_left (b : List Char)
    (hocc : occurrences "+IPD".toList (cstr b) ≤ 1) :
    occurrences "+IPD".toList (cstr (checkIncomingIPD b).2) = 0 := by
  unfold checkIncomingIPD
  cases h : strstr b "+IPD".toList with
  | none => exact occurrences_of_findSub_none _ _ h
  | some i =>
    obtain ⟨h1, h2⟩ := occurrences_after_mark "+IPD".toList (by decide) (by decide) b i h hocc
    simp only
    split
    · exact h1
    · split
      · exact h2 _
      · exact h1

theorem checkIncomingIPD_none (b : List Char)
    (hocc : occurrences "+IPD".toList (cstr b) = 0) : (checkIncomingIPD b).1.data = none := by
  unfold checkIncomingIPD
  have := findSub_none_of_occurrences "+IPD".toList (by decide) _ hocc
  unfold strstr
  rw [this]

theorem checkIncomingRECV_no_marker_left (b : List Char)
    (hocc : occurrences "RECV FROM:".toList (cstr b) ≤ 1) :
    occurrences "RECV FROM:".toList (cstr (checkIncomingRECV b).2) = 0 := by
  unfold checkIncomingRECV
  cases h : strstr b "RECV FROM:".toList with
  | none => exact occurrences_of_findSub_none _ _ h
  | some i =>
    obtain ⟨h1, -⟩ := occurrences_after_mark "RECV FROM:".toList (by decide) (by decide) b i h hocc
    simp only
    split <;> exact h1

theorem checkIncomingRECV_none (b : List Char)
    (hocc : occurrences "RECV FROM:".toList (cstr b) = 0) :
    (checkIncomingRECV b).1.data = none := by
  unfold checkIncomingRECV
  have := findSub_none_of_occurrences "RECV FROM:".toList (by decide) _ hocc
  unfold strstr
  rw [this]

theorem udpReceive_again (chk : List Char → Incoming × List Char) (needle : List Char)
    (cmd : Option (List Char))
    (h1 : ∀ b, occurrences needle (cstr b) = 0 → (chk b).1.data = none)
    (h2 : ∀ b, occurrences needle (cstr b) ≤ 1 → occurrences needle (cstr (chk b).2) = 0)
    (m : Modem) (hq : m.replies = []) (hocc : occurrences needle (cstr m.m_buffer) ≤ 1) :
    (udpReceive (fun x => ((chk x.m_buffer).1, { x with m_buffer := (chk x.m_buffer).2 })) cmd
      (udpReceive (fun x => ((chk x.m_buffer).1, { x with m_buffer := (chk x.m_buffer).2 })) cmd
        m).2).1.data = none := by
  -- a receive on a quiet line with no marker in the buffer returns nothing
  have quiet : ∀ x : Modem, x.replies = [] → occurrences needle (cstr x.m_buffer) = 0 →
      (udpReceive (fun x => ((chk x.m_buffer).1, { x with m_buffer := (chk x.m_buffer).2 })) cmd
        x).1.data = none := by
    intro x hx h0
    have hd := h1 _ h0
    cases cmd <;> simp [udpReceive, hd, sendCommand, xbWrite, hx]
  apply quiet
  · cases hd : (chk m.m_buffer).1.data <;> cases cmd <;>
      simp [udpReceive, hd, sendCommand, xbWrite, hq]
  · have h0 := h2 _ hocc
    cases hd : (chk m.m_buffer).1.data <;> cases cmd <;>
      simp [udpReceive, hd, sendCommand, xbWrite, hq, h0, cstr_set_nul, occurrences]

/-! ### Claims on inbound datagrams -/

theorem stringAt_extracted (a payload trailer : List Char) (hpay : NUL ∉ payload) :
    stringAt (a ++ payload ++ cutTrailer trailer) a.length = payload := by
  unfold stringAt
  rw [List.append_assoc, drop_of_eq_length a _ _ rfl]
  cases trailer with
  | nil => simpa [cutTrailer] using cstr_of_no_nul payload hpay
  | cons t0 t => exact cstr_append_nul payload t hpay

theorem checkIncomingIPD_delivers (m : Modem) (n : Nat) (pre payload trailer : List Char)
    (hbuf : m.m_buffer =
      pre ++ "+IPD".toList ++ Nat.toDigits 10 n ++ ['\n'] ++ payload ++ trailer)
    (hpre : ¬ "+IPD".toList <:+: pre) (hnul : NUL ∉ pre)
    (hlen : payload.length = n) (hpay : NUL ∉ payload) (htr : NUL ∉ trailer)
    (hn : n < 2147483648) :
    Delivers pre.length n payload
      ((checkIncomingIPD m.m_buffer).1, { m with m_buffer := (checkIncomingIPD m.m_buffer).2 }) := by
  rw [hbuf, checkIncomingIPD_extracts n pre payload trailer hpre hnul hlen hpay htr hn]
  refine ⟨rfl, ⟨_, rfl, ?_⟩, ?_⟩
  · have := stringAt_extracted (pre ++ "-IPD".toList ++ Nat.toDigits 10 n ++ ['\n'])
      payload trailer hpay
    simp only [List.length_append] at this
    simpa using this
  · simp only [List.append_assoc]
    rw [drop_of_eq_length pre _ _ rfl]
    have := drop_of_eq_length (pre ++ ['-'])
      ("IPD".toList ++ (Nat.toDigits 10 n ++ (['\n'] ++ (payload ++ cutTrailer trailer))))
      (pre.length + 1) (by simp)
    simp only [List.append_assoc, List.singleton_append] at this
    rw [show "-IPD".toList = '-' :: "IPD".toList from rfl, List.cons_append]
    simp only [List.singleton_append]
    rw [this]

theorem udpReceive_of_found (check : Modem → Incoming × Modem) (cmd : Option (List Char))
    (m : Modem) (p : Nat) (h : (check m).1.data = some p) :
    udpReceive check cmd m = check m := by
  simp [udpReceive, h]

/-- C3 (amended). A buffer `pre ++ "+IPD" ++ decimal(n) ++ "\n" ++ payload ++ trailer`, with
neither the marker nor a NUL in `pre`, a payload of exactly `n` bytes without NUL, a
trailer without NUL and `n` below `2^31`: `checkIncoming` and `receive` of the SIM5360
and SIM7600 UDP clients return the `n` payload bytes, report the count `n` and overwrite
the first byte of the marker; `receive` does so without waiting on the modem. -/
theorem udp_receive_IPD_datagram (m : Modem) (n : Nat) (pre payload trailer : List Char)
    (hbuf : m.m_buffer =
      pre ++ "+IPD".toList ++ Nat.toDigits 10 n ++ ['\n'] ++ payload ++ trailer)
    (hpre : ¬ "+IPD".toList <:+: pre) (hnul : NUL ∉ pre)
    (hlen : payload.length = n) (hpay : NUL ∉ payload) (htr : NUL ∉ trailer)
    (hn : n < 2147483648) :
    Delivers pre.length n payload (UDPClientSIM5360.checkIncoming m) ∧
    Delivers pre.length n payload (UDPClientSIM7600.checkIncoming m) ∧
    Delivers pre.length n payload (UDPClientSIM5360.receive m) ∧
    Delivers pre.length n payload (UDPClientSIM7600.receive m) ∧
    (UDPClientSIM5360.receive m).2.replies = m.replies ∧
    (UDPClientSIM7600.receive m).2.replies = m.replies := by
  have h := checkIncomingIPD_delivers m n pre payload trailer hbuf hpre hnul hlen hpay htr hn
  have h5 : Delivers pre.length n payload (UDPClientSIM5360.checkIncoming m) := h
  have h7 : Delivers pre.length n payload (UDPClientSIM7600.checkIncoming m) := h
  obtain ⟨p, hp, -⟩ := h.2.1
  have e5 : UDPClientSIM5360.receive m = UDPClientSIM5360.checkIncoming m :=
    udpReceive_of_found _ _ m p hp
  have e7 : UDPClientSIM7600.receive m = UDPClientSIM7600.checkIncoming m :=
    udpReceive_of_found _ _ m p hp
  refine ⟨h5, h7, ?_, ?_, ?_, ?_⟩
  · rw [e5]; exact h5
  · rw [e7]; exact h7
  · rw [e5]; rfl
  · rw [e7]; rfl

/-- The scenario of the specification: `"+IPD123\n"`, 123 payload bytes, a trailer. -/
theorem udp_receive_IPD_datagram_witness :
    Delivers 0 123 (List.replicate 123 'x')
      (UDPClientSIM5360.receive
        ⟨[] ++ "+IPD".toList ++ Nat.toDigits 10 123 ++ ['\n'] ++ List.replicate 123 'x'
            ++ "\r\nOK\r\n".toList, HTTP_DISCONNECTED, [], 0, [], []⟩) :=
  (udp_receive_IPD_datagram
    ⟨[] ++ "+IPD".toList ++ Nat.toDigits 10 123 ++ ['\n'] ++ List.replicate 123 'x'
        ++ "\r\nOK\r\n".toList, HTTP_DISCONNECTED, [], 0, [], []⟩
    123 [] (List.replicate 123 'x') "\r\nOK\r\n".toList rfl (by decide) (by decide)
    (by decide) (by decide) (by decide) (by decide)).2.2.1

/-- C3 as stated fails when a NUL precedes the marker. The buffer
`"-IPD1\nA\x00+IPD1\nB"` is what `checkIncoming` leaves of `"+IPD1\nA\n+IPD1\nB"`; it
has the stated form with the marker-free prefix `"-IPD1\nA\x00"`, `n = 1` and payload
`"B"`, yet neither `checkIncoming` nor `receive` returns a datagram. -/
theorem udp_receive_IPD_behind_nul :
    (checkIncomingIPD "+IPD1\nA\n+IPD1\nB".toList).2 =
      "-IPD1\nA\x00".toList ++ "+IPD".toList ++ Nat.toDigits 10 1 ++ ['\n'] ++ "B".toList ++ [] ∧
    ¬ ("+IPD".toList <:+: "-IPD1\nA\x00".toList) ∧
    "B".toList.length = 1 ∧ NUL ∉ "B".toList ∧
    (UDPClientSIM5360.checkIncoming
      ⟨"-IPD1\nA\x00".toList ++ "+IPD".toList ++ Nat.toDigits 10 1 ++ ['\n'] ++ "B".toList ++ [],
        HTTP_DISCONNECTED, [], 0, [], []⟩).1 = ⟨none, none⟩ ∧
    (UDPClientSIM5360.receive
      ⟨"-IPD1\nA\x00".toList ++ "+IPD".toList ++ Nat.toDigits 10 1 ++ ['\n'] ++ "B".toList ++ [],
        HTTP_DISCONNECTED, [], 0, [], []⟩).1 = ⟨none, none⟩ := by
  decide

/-- C4 (amended). On a line that delivers nothing more, and with at most one datagram
marker in the buffer, the `receive` that follows a `receive` returns no datagram, for
each of the three modem variants. -/
theorem udp_receive_marker_consumed (v : ModemVariant) (m : Modem) (hq : m.replies = [])
    (hocc : occurrences (datagramMarker v) (cstr m.m_buffer) ≤ 1) :
    (UDPClient.receive v (UDPClient.receive v m).2).1.data = none := by
  cases v
  · exact udpReceive_again checkIncomingRECV "RECV FROM:".toList _
      checkIncomingRECV_none checkIncomingRECV_no_marker_left m hq hocc
  · exact udpReceive_again checkIncomingIPD "+IPD".toList _
      checkIncomingIPD_none checkIncomingIPD_no_marker_left m hq hocc
  · exact udpReceive_again checkIncomingIPD "+IPD".toList _
      checkIncomingIPD_none checkIncomingIPD_no_marker_left m hq hocc

theorem udp_receive_marker_consumed_witness :
    (UDPClient.receive ModemVariant.SIM5360
      ⟨"+IPD3\nabc\r\nOK\r\n".toList, HTTP_DISCONNECTED, [], 0, [], []⟩).1 = ⟨some 6, some 3⟩ ∧
    (UDPClient.receive ModemVariant.SIM5360
      (UDPClient.receive ModemVariant.SIM5360
        ⟨"+IPD3\nabc\r\nOK\r\n".toList, HTTP_DISCONNECTED, [], 0, [], []⟩).2).1.data = none :=
  ⟨by decide, udp_receive_marker_consumed ModemVariant.SIM5360
    ⟨"+IPD3\nabc\r\nOK\r\n".toList, HTTP_DISCONNECTED, [], 0, [], []⟩ rfl (by decide)⟩

/-- C4 as stated fails when the buffer holds a further marker. A 12-byte datagram whose
payload contains the text `+IPD1`: the first `receive` returns it, the second `receive`,
with nothing new on the line, returns a datagram again. On the SIM800 a marker that
repeats before the line feed makes both calls return the same pointer and count. -/
theorem udp_receive_second_marker :
    (UDPClientSIM5360.receive
      ⟨"+IPD12\nabc+IPD1\nxyz".toList, HTTP_DISCONNECTED, [], 0, [], []⟩).1 = ⟨some 7, some 12⟩ ∧
    (UDPClientSIM5360.receive (UDPClientSIM5360.receive
      ⟨"+IPD12\nabc+IPD1\nxyz".toList, HTTP_DISCONNECTED, [], 0, [], []⟩).2).1
        = ⟨some 16, some 1⟩ ∧
    (UDPClientSIM800.receive
      ⟨"RECV FROM:RECV FROM:1.2.3.4\nabc".toList, HTTP_DISCONNECTED, [], 0, [], []⟩).1
        = ⟨some 28, some 4⟩ ∧
    (UDPClientSIM800.receive (UDPClientSIM800.receive
      ⟨"RECV FROM:RECV FROM:1.2.3.4\nabc".toList, HTTP_DISCONNECTED, [], 0, [], []⟩).2).1
        = ⟨some 28, some 4⟩ := by
  decide

/-! ### Claims on the HTTP connection state -/

theorem toInt32_of_range (v : Int) (h0 : 0 ≤ v) (h1 : v < 2147483648) : toInt32 v = v := by
  unfold toInt32; omega

theorem genHeader_size_pos (method : HTTP_METHOD) (path : List Char) (keepAlive : Bool)
    (payload : Option (List Char)) (payloadSize : Int) :
    0 < (genHeader method path keepAlive payload payloadSize).2 := by
  cases method <;> cases keepAlive <;> simp [genHeader, sprintf]

/-- C9. For the four HTTP client variants, whatever the state before and whatever the
transport answers, `close` leaves the state `HTTP_DISCONNECTED`, and a second `close`
leaves the state the first one left. -/
theorem http_close_disconnected (c : WifiClient) (m : Modem) :
    ((HTTPClientWIFI.close c).m_state = HTTP_DISCONNECTED ∧
      (HTTPClientSIM800.close m).m_state = HTTP_DISCONNECTED ∧
      (HTTPClientSIM5360.close m).m_state = HTTP_DISCONNECTED ∧
      (HTTPClientSIM7600.close m).m_state = HTTP_DISCONNECTED) ∧
    ((HTTPClientWIFI.close (HTTPClientWIFI.close c)).m_state
        = (HTTPClientWIFI.close c).m_state ∧
      (HTTPClientSIM800.close (HTTPClientSIM800.close m)).m_state
        = (HTTPClientSIM800.close m).m_state ∧
      (HTTPClientSIM5360.close (HTTPClientSIM5360.close m)).m_state
        = (HTTPClientSIM5360.close m).m_state ∧
      (HTTPClientSIM7600.close (HTTPClientSIM7600.close m)).m_state
        = (HTTPClientSIM7600.close m).m_state) :=
  ⟨⟨rfl, rfl, rfl, rfl⟩, ⟨rfl, rfl, rfl, rfl⟩⟩

/-- C6 at the failing input. `HTTPClientSIM800::open` on a client in the initial state,
when the modem does not acknowledge `AT+HTTPINIT`: the call returns false and the state
is still `HTTP_DISCONNECTED`, not `HTTP_ERROR`; the other three variants set
`HTTP_ERROR` when their connect fails. -/
theorem http_open_SIM800_unacknowledged :
    (HTTPClientSIM800.open "hub.freematics.com".toList 80
      ⟨[], HTTP_DISCONNECTED, [], 0, [⟨0, "\r\nERROR\r\n".toList⟩], []⟩).1 = false ∧
    (HTTPClientSIM800.open "hub.freematics.com".toList 80
      ⟨[], HTTP_DISCONNECTED, [], 0, [⟨0, "\r\nERROR\r\n".toList⟩], []⟩).2.m_state
        = HTTP_DISCONNECTED ∧
    (∀ (host : List Char) (port : Nat) (c : WifiClient) (m : Modem),
      (HTTPClientWIFI.open false c).2.m_state = HTTP_ERROR ∧
      ((HTTPClientSIM5360.open host port m).1 = false →
        (HTTPClientSIM5360.open host port m).2.m_state = HTTP_ERROR) ∧
      ((HTTPClientSIM7600.open host port m).1 = false →
        (HTTPClientSIM7600.open host port m).2.m_state = HTTP_ERROR)) := by
  refine ⟨by decide, by decide, ?_⟩
  intro host port c m
  refine ⟨rfl, ?_, ?_⟩
  · unfold HTTPClientSIM5360.open
    simp only
    split <;> simp
  · unfold HTTPClientSIM7600.open
    simp only
    split <;> simp

theorem cstr_length_le (s : List Char) : (cstr s).length ≤ s.length := by
  induction s with
  | nil => simp [cstr]
  | cons c cs ih =>
    by_cases hc : c = NUL
    · simp [cstr, hc]
    · simp [cstr, hc]; omega

theorem path_length_le_header (method : HTTP_METHOD) (path : List Char) (keepAlive : Bool)
    (payload : Option (List Char)) (payloadSize : Int) :
    path.length ≤ (genHeader method path keepAlive payload payloadSize).2 := by
  cases method <;> cases keepAlive <;> simp [genHeader, sprintf] <;> omega

theorem wifi_send_outcome (method : HTTP_METHOD) (path : List Char) (keepAlive : Bool)
    (payload : Option (List Char)) (payloadSize : Int) (hsize : 0 ≤ payloadSize)
    (hfit : ((genHeader method path keepAlive payload payloadSize).2 : Int) + payloadSize
      < 2147483648) (w1 w2 : Nat) (c : WifiClient) :
    SendOutcome (HTTPClientWIFI.send method path keepAlive payload payloadSize w1 w2 c).1
      (HTTPClientWIFI.send method path keepAlive payload payloadSize w1 w2 c).2.m_state := by
  have hpos := genHeader_size_pos method path keepAlive payload payloadSize
  unfold HTTPClientWIFI.send SendOutcome
  simp only
  split_ifs
  · right; simp
  · right; simp
  · left
    rw [toInt32_of_range _ (by omega) hfit]
    exact ⟨by omega, rfl⟩

theorem sim5360_send_outcome (method : HTTP_METHOD) (path : List Char) (keepAlive : Bool)
    (payload : Option (List Char)) (payloadSize : Int) (hsize : 0 ≤ payloadSize)
    (hfit : ((genHeader method path keepAlive payload payloadSize).2 : Int) + payloadSize
      < 2147483648) (m : Modem) :
    SendOutcome (HTTPClientSIM5360.send method path keepAlive payload payloadSize m).1
      (HTTPClientSIM5360.send method path keepAlive payload payloadSize m).2.m_state := by
  have hpos := genHeader_size_pos method path keepAlive payload payloadSize
  unfold HTTPClientSIM5360.send SendOutcome
  simp only
  split_ifs
  · right; simp
  · left
    rw [toInt32_of_range _ (by omega) hfit]
    exact ⟨by omega, rfl⟩
  · right; simp

theorem sim7600_send_outcome (method : HTTP_METHOD) (path : List Char) (keepAlive : Bool)
    (payload : Option (List Char)) (payloadSize : Int) (hsize : 0 ≤ payloadSize)
    (hfit : ((genHeader method path keepAlive payload payloadSize).2 : Int) + payloadSize
      < 2147483648) (m : Modem) :
    SendOutcome (HTTPClientSIM7600.send method path keepAlive payload payloadSize m).1
      (HTTPClientSIM7600.send method path keepAlive payload payloadSize m).2.m_state := by
  have hpos := genHeader_size_pos method path keepAlive payload payloadSize
  unfold HTTPClientSIM7600.send SendOutcome
  simp only
  split_ifs
  · left
    rw [toInt32_of_range ((genHeader method path keepAlive payload payloadSize).2 : Int)
      (by omega) (by omega), toInt32_of_range _ (by omega) hfit]
    exact ⟨by omega, rfl⟩
  · right; simp

theorem sim800_send_outcome (method : HTTP_METHOD) (path : List Char) (keepAlive : Bool)
    (payload : Option (List Char)) (payloadSize : Int) (hsize : 0 ≤ payloadSize)
    (hfit : ((genHeader method path keepAlive payload payloadSize).2 : Int) + payloadSize
      < 2147483648) (m : Modem) :
    ((HTTPClientSIM800.send method path keepAlive payload payloadSize m).1 = -1 →
      (HTTPClientSIM800.send method path keepAlive payload payloadSize m).2.m_state
        = HTTP_ERROR) ∧
    (method = HTTP_GET →
      (HTTPClientSIM800.send method path keepAlive payload payloadSize m).1 ≠ -1 →
      (HTTPClientSIM800.send method path keepAlive payload payloadSize m).1 = strlen path ∧
      (HTTPClientSIM800.send method path keepAlive payload payloadSize m).2.m_state
        = HTTP_SENT) := by
  have hlen := path_length_le_header method path keepAlive payload payloadSize
  have hc := cstr_length_le path
  have hstr : toInt32 (strlen path) = strlen path := by
    apply toInt32_of_range
    · omega
    · unfold strlen; omega
  unfold HTTPClientSIM800.send
  cases method
  · simp only [if_true]
    split_ifs <;> simp [hstr]
  · simp only [reduceCtorEq, if_false]
    split_ifs <;> simp <;> omega

theorem sim800_post_acknowledged (path : List Char) (keepAlive : Bool)
    (payload : Option (List Char)) (payloadSize : Int) (m : Modem)
    (a b c d : Reply) (rest : List Reply) (hr : m.replies = a :: b :: c :: d :: rest)
    (hb : b.ret ≠ 0) (hc : c.ret ≠ 0) (hd : d.ret ≠ 0) :
    (HTTPClientSIM800.send HTTP_POST path keepAlive payload payloadSize m).1 = payloadSize ∧
    (HTTPClientSIM800.send HTTP_POST path keepAlive payload payloadSize m).2.m_state
      = HTTP_SENT := by
  simp [HTTPClientSIM800.send, sendCommand, xbWrite, hr, hb, hc, hd]

/-- C5 (amended). For payload sizes that are not negative and requests below `2^31` bytes:
after `send` of the WiFi, SIM5360 and SIM7600 clients the state is `HTTP_SENT` when the
count returned is positive and `HTTP_ERROR` or `HTTP_DISCONNECTED` when it is not. The
SIM800 client returns the length of the path (GET) or the payload size (POST) instead,
which may be 0: when it returns -1 the state is `HTTP_ERROR`; a GET that does not return
-1 returns the path length with the state `HTTP_SENT`; a POST whose three commands after
the first are acknowledged returns the payload size with the state `HTTP_SENT`. -/
theorem http_send_state (method : HTTP_METHOD) (path : List Char) (keepAlive : Bool)
    (payload : Option (List Char)) (payloadSize : Int) (hsize : 0 ≤ payloadSize)
    (hfit : ((genHeader method path keepAlive payload payloadSize).2 : Int) + payloadSize
      < 2147483648) :
    (∀ (w1 w2 : Nat) (c : WifiClient),
      SendOutcome (HTTPClientWIFI.send method path keepAlive payload payloadSize w1 w2 c).1
        (HTTPClientWIFI.send method path keepAlive payload payloadSize w1 w2 c).2.m_state) ∧
    (∀ m : Modem,
      SendOutcome (HTTPClientSIM5360.send method path keepAlive payload payloadSize m).1
        (HTTPClientSIM5360.send method path keepAlive payload payloadSize m).2.m_state) ∧
    (∀ m : Modem,
      SendOutcome (HTTPClientSIM7600.send method path keepAlive payload payloadSize m).1
        (HTTPClientSIM7600.send method path keepAlive payload payloadSize m).2.m_state) ∧
    (∀ m : Modem,
      ((HTTPClientSIM800.send method path keepAlive payload payloadSize m).1 = -1 →
        (HTTPClientSIM800.send method path keepAlive payload payloadSize m).2.m_state
          = HTTP_ERROR) ∧
      (method = HTTP_GET →
        (HTTPClientSIM800.send method path keepAlive payload payloadSize m).1 ≠ -1 →
        (HTTPClientSIM800.send method path keepAlive payload payloadSize m).1 = strlen path ∧
        (HTTPClientSIM800.send method path keepAlive payload payloadSize m).2.m_state
          = HTTP_SENT) ∧
      (method = HTTP_POST →
        ∀ (a b c d : Reply) (rest : List Reply), m.replies = a :: b :: c :: d :: rest →
          b.ret ≠ 0 → c.ret ≠ 0 → d.ret ≠ 0 →
          (HTTPClientSIM800.send method path keepAlive payload payloadSize m).1 = payloadSize ∧
          (HTTPClientSIM800.send method path keepAlive payload payloadSize m).2.m_state
            = HTTP_SENT)) := by
  refine ⟨fun w1 w2 c => wifi_send_outcome method path keepAlive payload payloadSize hsize hfit w1 w2 c,
    fun m => sim5360_send_outcome method path keepAlive payload payloadSize hsize hfit m,
    fun m => sim7600_send_outcome method path keepAlive payload payloadSize hsize hfit m,
    fun m => ?_⟩
  obtain ⟨h1, h2⟩ := sim800_send_outcome method path keepAlive payload payloadSize hsize hfit m
  refine ⟨h1, h2, ?_⟩
  intro hm a b c d rest hr hb hc hd
  subst hm
  exact sim800_post_acknowledged path keepAlive payload payloadSize m a b c d rest hr hb hc hd

theorem http_send_state_witness :
    (0 : Int) ≤ 3 ∧
    SendOutcome
      (HTTPClientSIM7600.send HTTP_POST "/push".toList true (some "abc".toList) 3
        ⟨[], HTTP_CONNECTED, [], 0, [⟨1, "\r\nOK\r\n".toList⟩], []⟩).1
      (HTTPClientSIM7600.send HTTP_POST "/push".toList true (some "abc".toList) 3
        ⟨[], HTTP_CONNECTED, [], 0, [⟨1, "\r\nOK\r\n".toList⟩], []⟩).2.m_state :=
  ⟨by decide, (http_send_state HTTP_POST "/push".toList true (some "abc".toList) 3
    (by decide) (by decide)).2.2.1 _⟩

/-- C5 as stated fails on the SIM800 client, whose `send` returns the payload size or the
path length: a POST with an empty payload, and a GET with an empty path, that the modem
acknowledges throughout return 0 and leave the state `HTTP_SENT`. -/
theorem http_send_SIM800_empty_post :
    ¬ SendOutcome
      (HTTPClientSIM800.send HTTP_POST "/push".toList true none 0
        ⟨[], HTTP_CONNECTED, "hub".toList, 80,
          [⟨1, "OK".toList⟩, ⟨1, "OK".toList⟩, ⟨1, "DOWNLOAD".toList⟩, ⟨1, "OK".toList⟩], []⟩).1
      (HTTPClientSIM800.send HTTP_POST "/push".toList true none 0
        ⟨[], HTTP_CONNECTED, "hub".toList, 80,
          [⟨1, "OK".toList⟩, ⟨1, "OK".toList⟩, ⟨1, "DOWNLOAD".toList⟩, ⟨1, "OK".toList⟩], []⟩).2.m_state ∧
    ¬ SendOutcome
      (HTTPClientSIM800.send HTTP_GET [] true none 0
        ⟨[], HTTP_CONNECTED, "hub".toList, 80,
          [⟨1, "OK".toList⟩, ⟨1, "OK".toList⟩, ⟨1, "OK".toList⟩], []⟩).1
      (HTTPClientSIM800.send HTTP_GET [] true none 0
        ⟨[], HTTP_CONNECTED, "hub".toList, 80,
          [⟨1, "OK".toList⟩, ⟨1, "OK".toList⟩, ⟨1, "OK".toList⟩], []⟩).2.m_state := by
  unfold SendOutcome
  decide

/-- The POST branch of `HTTPClientSIM800::send` when `AT+HTTPDATA` is acknowledged and
`AT+HTTPACTION=1` is not: the unbraced `return payloadSize;` hands back the payload size
and the state stays what it was. -/
theorem http_send_SIM800_post_action_unacknowledged :
    (HTTPClientSIM800.send HTTP_POST "/push".toList true (some "hello".toList) 5
      ⟨[], HTTP_CONNECTED, "hub".toList, 80,
        [⟨1, "OK".toList⟩, ⟨1, "OK".toList⟩, ⟨1, "DOWNLOAD".toList⟩, ⟨0, "ERROR".toList⟩], []⟩).1 = 5 ∧
    (HTTPClientSIM800.send HTTP_POST "/push".toList true (some "hello".toList) 5
      ⟨[], HTTP_CONNECTED, "hub".toList, 80,
        [⟨1, "OK".toList⟩, ⟨1, "OK".toList⟩, ⟨1, "DOWNLOAD".toList⟩, ⟨0, "ERROR".toList⟩], []⟩).2.m_state
      = HTTP_CONNECTED := by
  decide

theorem findSub_isPrefixOf (needle : List Char) :
    ∀ (s : List Char) (i : Nat), findSub needle s = some i →
      needle.isPrefixOf (s.drop i) = true := by
  intro s
  induction s with
  | nil =>
    intro i h
    by_cases hn : needle = []
    · simp [hn, List.isPrefixOf]
    · simp [findSub, hn] at h
  | cons x xs ih =>
    intro i h
    cases hp : needle.isPrefixOf (x :: xs) with
    | true =>
      simp only [findSub, hp, if_true, Option.some.injEq] at h
      subst h; simpa using hp
    | false =>
      simp only [findSub, hp, Bool.false_eq_true, if_false] at h
      cases hf : findSub needle xs with
      | none => simp [hf] at h
      | some j =>
        simp only [hf, Option.map_some', Option.some.injEq] at h
        subst h
        simpa using ih j hf

theorem cstr_drop : ∀ (b : List Char) (i : Nat), i ≤ (cstr b).length →
    cstr (b.drop i) = (cstr b).drop i := by
  intro b
  induction b with
  | nil => intro i _; simp [cstr]
  | cons x xs ih =>
    intro i h
    cases i with
    | zero => simp
    | succ i =>
      by_cases hx : x = NUL
      · simp [cstr, hx] at h
      · simp only [cstr, hx, if_false, List.length_cons, Nat.add_le_add_iff_right] at h
        simp [cstr, hx, ih i h]

theorem cons_of_cstr_cons (b : List Char) (x : Char) (t : List Char) (h : cstr b = x :: t) :
    ∃ u, b = x :: u ∧ x ≠ NUL ∧ cstr u = t := by
  cases b with
  | nil => simp [cstr] at h
  | cons y ys =>
    by_cases hy : y = NUL
    · simp [cstr, hy] at h
    · simp only [cstr, hy, if_false, List.cons.injEq] at h
      exact ⟨ys, by rw [h.1], h.1 ▸ hy, h.2⟩

theorem findChar_drop (c : Char) : ∀ (s : List Char) (j : Nat), findChar c s = some j →
    s.drop j = c :: s.drop (j + 1) := by
  intro s
  induction s with
  | nil => intro j h; simp [findChar] at h
  | cons x xs ih =>
    intro j h
    by_cases hx : x = c
    · simp only [findChar, hx, if_true, Option.some.injEq] at h
      subst h; simp [hx]
    · simp only [findChar, hx, if_false] at h
      cases hf : findChar c xs with
      | none => simp [hf] at h
      | some k =>
        simp only [hf, Option.map_some', Option.some.injEq] at h
        subst h
        simpa using ih k hf

theorem findChar_le (c : Char) : ∀ (s : List Char) (j : Nat), findChar c s = some j →
    j < s.length := by
  intro s j h
  have := findChar_drop c s j h
  by_contra hlt
  rw [List.drop_eq_nil_of_le (by omega)] at this
  exact absurd this (by simp)

theorem drop_set_head : ∀ (b : List Char) (i : Nat) (x y : Char) (t : List Char),
    b.drop i = x :: t → (b.set i y).drop i = y :: t ∧
      ∀ k, (b.set i y).drop (i + k + 1) = t.drop k := by
  intro b
  induction b with
  | nil => intro i x y t h; simp at h
  | cons z zs ih =>
    intro i x y t h
    cases i with
    | zero =>
      simp only [List.drop_zero, List.cons.injEq] at h
      refine ⟨by simp [h.2], fun k => ?_⟩
      simp [h.2]
    | succ i =>
      simp only [List.drop_succ_cons] at h
      obtain ⟨h1, h2⟩ := ih i x y t h
      refine ⟨by simpa using h1, fun k => ?_⟩
      have := h2 k
      simp only [List.set_cons_succ]
      rw [show i + 1 + k + 1 = (i + k + 1) + 1 by omega, List.drop_succ_cons]
      exact this

theorem checkIncomingRECV_count (b : List Char) (i j : Nat)
    (hm : strstr b "RECV FROM:".toList = some i)
    (hn : strchr (b.drop i) '\n' = some j) :
    (checkIncomingRECV b).1
        = ⟨some (i + j + 1), some (((stringAt b (i + j + 1)).length : Int) + 1)⟩ ∧
      stringAt (checkIncomingRECV b).2 (i + j + 1) = stringAt b (i + j + 1) := by
  have hm2 := hm
  unfold strstr at hm2
  have hpre := findSub_isPrefixOf _ _ _ hm2
  have hlt := findSub_lt "RECV FROM:".toList (by decide) _ _ hm2
  have hc : cstr (b.drop i) = (cstr b).drop i := cstr_drop b i (Nat.le_of_lt hlt)
  -- the byte at the marker is `R`
  obtain ⟨t0, ht0⟩ : ∃ t0, (cstr b).drop i = 'R' :: t0 := by
    cases hd : (cstr b).drop i with
    | nil => rw [hd] at hpre; exact absurd hpre (by decide)
    | cons x t0 =>
      rw [hd] at hpre
      have hx : 'R' = x := by
        have := hpre
        simp only [String.toList, List.isPrefixOf, Bool.and_eq_true, beq_iff_eq] at this
        exact this.1
      exact ⟨t0, by rw [hx]⟩
  obtain ⟨u, hbu, -, hcu⟩ := cons_of_cstr_cons (b.drop i) 'R' t0 (hc.trans ht0)
  obtain ⟨h1, h2⟩ := drop_set_head b i 'R' '-' u hbu
  -- the line feed lies behind the marker byte
  obtain ⟨j', hj', rfl⟩ : ∃ j', findChar '\n' (cstr u) = some j' ∧ j = j' + 1 := by
    rw [hbu] at hn
    unfold strchr at hn
    have e : cstr ('R' :: u) = 'R' :: cstr u := by simp [cstr, NUL]
    rw [e] at hn
    have hR : ('R' : Char) ≠ '\n' := by decide
    simp only [findChar, hR, if_false] at hn
    cases hf : findChar '\n' (cstr u) with
    | none => simp [hf] at hn
    | some k =>
      simp only [hf, Option.map_some', Option.some.injEq] at hn
      exact ⟨k, rfl, hn.symm⟩
  have hchr : strchr ((b.set i '-').drop i) '\n' = some (j' + 1) := by
    rw [h1]
    unfold strchr
    have e : cstr ('-' :: u) = '-' :: cstr u := by simp [cstr, NUL]
    rw [e]
    have hR : ('-' : Char) ≠ '\n' := by decide
    simp [findChar, hR, hj']
  have hjlt := findChar_le '\n' _ _ hj'
  have hnl := findChar_drop '\n' _ _ hj'
  have hafter : ∀ (c : List Char), c.drop i = 'R' :: u ∨ c.drop i = '-' :: u →
      c.drop (i + (j' + 1) + 1) = u.drop (j' + 1) := by
    intro c hc0
    have : c.drop (i + (j' + 1) + 1) = (c.drop i).drop (j' + 2) := by
      rw [List.drop_drop]; congr 1
    rw [this]
    rcases hc0 with h | h <;> rw [h] <;> exact List.drop_succ_cons
  have hs1 : stringAt b (i + (j' + 1) + 1) = (cstr u).drop (j' + 1) := by
    unfold stringAt
    rw [hafter b (Or.inl hbu), cstr_drop u (j' + 1) (by omega)]
  have hs2 : stringAt (b.set i '-') (i + (j' + 1) + 1) = (cstr u).drop (j' + 1) := by
    unfold stringAt
    rw [hafter _ (Or.inr h1), cstr_drop u (j' + 1) (by omega)]
  have hlen : strlen ((b.set i '-').drop (i + (j' + 1))) = ((cstr u).drop (j' + 1)).length + 1 := by
    unfold strlen
    have := h2 j'
    rw [show i + (j' + 1) = i + j' + 1 by omega, this, cstr_drop u j' (by omega), hnl]
    simp
  unfold checkIncomingRECV
  simp only [hm, hchr, hlen, hs1, hs2]
  constructor
  · congr 2
  · trivial

/-- C14. When the SIM800 buffer holds `RECV FROM:` with a line feed behind it,
`UDPClientSIM800::checkIncoming` (and `receive`, which starts with it) returns the text
behind that line feed and stores through `pbytes` a count that is the length of the
returned text plus one, since `strlen` is taken at the line feed; the count therefore
differs from the number of bytes returned. -/
theorem udp_SIM800_count_off_by_one (m : Modem) (i j : Nat)
    (hm : strstr m.m_buffer "RECV FROM:".toList = some i)
    (hn : strchr (m.m_buffer.drop i) '\n' = some j) :
    ((UDPClientSIM800.checkIncoming m).1.data = some (i + j + 1) ∧
      stringAt (UDPClientSIM800.checkIncoming m).2.m_buffer (i + j + 1)
        = stringAt m.m_buffer (i + j + 1) ∧
      (UDPClientSIM800.checkIncoming m).1.bytes
        = some (((stringAt (UDPClientSIM800.checkIncoming m).2.m_buffer (i + j + 1)).length
            : Int) + 1) ∧
      (UDPClientSIM800.checkIncoming m).1.bytes
        ≠ some ((stringAt (UDPClientSIM800.checkIncoming m).2.m_buffer (i + j + 1)).length
            : Int)) ∧
    UDPClientSIM800.receive m = UDPClientSIM800.checkIncoming m := by
  obtain ⟨h1, h2⟩ := checkIncomingRECV_count m.m_buffer i j hm hn
  have hd : (UDPClientSIM800.checkIncoming m).1.data = some (i + j + 1) := by
    show (checkIncomingRECV m.m_buffer).1.data = _
    rw [h1]
  have hs : stringAt (UDPClientSIM800.checkIncoming m).2.m_buffer (i + j + 1)
      = stringAt m.m_buffer (i + j + 1) := h2
  have hb : (UDPClientSIM800.checkIncoming m).1.bytes
      = some (((stringAt m.m_buffer (i + j + 1)).length : Int) + 1) := by
    show (checkIncomingRECV m.m_buffer).1.bytes = _
    rw [h1]
  refine ⟨⟨hd, hs, ?_, ?_⟩, udpReceive_of_found _ _ m _ hd⟩
  · rw [hs]; exact hb
  · rw [hs, hb]
    intro h
    simp only [Option.some.injEq] at h
    omega

theorem udp_SIM800_count_off_by_one_witness :
    (UDPClientSIM800.checkIncoming
      ⟨"RECV FROM:1.2.3.4:8081\r\nhello".toList, HTTP_DISCONNECTED, [], 0, [], []⟩).1
        = ⟨some 24, some 6⟩ ∧
    stringAt (UDPClientSIM800.checkIncoming
      ⟨"RECV FROM:1.2.3.4:8081\r\nhello".toList, HTTP_DISCONNECTED, [], 0, [], []⟩).2.m_buffer 24
        = "hello".toList ∧
    (UDPClientSIM800.checkIncoming
      ⟨"RECV FROM:1.2.3.4:8081\r\nhello".toList, HTTP_DISCONNECTED, [], 0, [], []⟩).1.bytes
        ≠ some ((stringAt (UDPClientSIM800.checkIncoming
          ⟨"RECV FROM:1.2.3.4:8081\r\nhello".toList, HTTP_DISCONNECTED, [], 0, [], []⟩).2.m_buffer
            (0 + 23 + 1)).length : Int) :=
  ⟨by decide, by decide,
    (udp_SIM800_count_off_by_one
      ⟨"RECV FROM:1.2.3.4:8081\r\nhello".toList, HTTP_DISCONNECTED, [], 0, [], []⟩ 0 23
      (by decide) (by decide)).1.2.2.2⟩

/-! ### Signal quality decoding -/

theorem findChar_none (c : Char) : ∀ (s : List Char), c ∉ s → findChar c s = none := by
  intro s
  induction s with
  | nil => intro _; rfl
  | cons x xs ih =>
    intro h
    simp only [List.mem_cons, not_or] at h
    have hx : x ≠ c := fun e => h.1 e.symm
    simp [findChar, hx, ih h.2]

theorem digitChar_toNat (d : Nat) (hd : d < 10) :
    ((Nat.digitChar d).toNat : Int) - 48 = d ∧ Nat.digitChar d ≠ NUL := by
  revert d; decide

theorem getD_append_length (a b : List Char) (x y : Char) :
    (a ++ x :: b).getD a.length y = x := by
  induction a with
  | nil => rfl
  | cons c cs ih => simpa using ih

theorem sendCommand_reply (cmd : Option (List Char)) (m : Modem) (r : Reply)
    (rs : List Reply) (hr : m.replies = r :: rs) :
    (sendCommand cmd m).1 = decide (r.ret ≠ 0) ∧ (sendCommand cmd m).2.m_buffer = r.buffer := by
  cases cmd <;> simp [sendCommand, xbWrite, hr]

theorem sendCommand_silent (cmd : Option (List Char)) (m : Modem) (hr : m.replies = []) :
    (sendCommand cmd m).1 = false := by
  cases cmd <;> simp [sendCommand, xbWrite, hr]

theorem parseSignal_value (q qf : Nat) (pre mid rest : List Char)
    (hpre : ':' ∉ pre) (hnul : NUL ∉ pre) (hmid : '.' ∉ mid) (hmidnul : NUL ∉ mid)
    (hmidhead : ∀ c ∈ mid.head?, isdigit c = false)
    (hq : q ≤ 214748363) (hqf : qf ≤ 9) :
    parseSignal (pre ++ ": ".toList ++ Nat.toDigits 10 q ++ mid
        ++ '.' :: Nat.digitChar qf :: rest) = (q : Int) * 10 + qf := by
  obtain ⟨hne, hdig, -⟩ := toDigits_spec q
  have hdnul : NUL ∉ Nat.toDigits 10 q := fun hm => (isdigit_ne _ (hdig _ hm)).1 rfl
  have hddot : '.' ∉ Nat.toDigits 10 q := fun hm => (isdigit_ne _ (hdig _ hm)).2.2.2.2.1 rfl
  obtain ⟨hqfv, hqfn⟩ := digitChar_toNat qf (by omega)
  set ds := Nat.toDigits 10 q with hds
  set d := Nat.digitChar qf with hd
  have hbuf : pre ++ ": ".toList ++ ds ++ mid ++ '.' :: d :: rest
      = pre ++ ':' :: (' ' :: (ds ++ mid ++ '.' :: d :: rest)) := by simp
  have hcolon : strchr (pre ++ ':' :: (' ' :: (ds ++ mid ++ '.' :: d :: rest))) ':'
      = some pre.length := by
    unfold strchr
    rw [cstr_append_of_no_nul _ _ hnul]
    have e : cstr (':' :: (' ' :: (ds ++ mid ++ '.' :: d :: rest)))
        = ':' :: cstr (' ' :: (ds ++ mid ++ '.' :: d :: rest)) := by simp [cstr, NUL]
    rw [e]
    exact findChar_append ':' pre _ hpre
  have hdrop : (pre ++ ':' :: (' ' :: (ds ++ mid ++ '.' :: d :: rest))).drop (pre.length + 2)
      = ds ++ (mid ++ '.' :: d :: rest) := by
    have e : pre ++ ':' :: (' ' :: (ds ++ mid ++ '.' :: d :: rest))
        = (pre ++ [':', ' ']) ++ (ds ++ (mid ++ '.' :: d :: rest)) := by simp
    rw [e]
    exact drop_of_eq_length _ _ _ (by simp)
  have hatoi : atoi (ds ++ (mid ++ '.' :: d :: rest)) = q := by
    apply atoi_toDigits q (by omega)
    cases mid with
    | nil => simp; decide
    | cons x xs => simpa using hmidhead
  have hdot : strchr (ds ++ (mid ++ '.' :: d :: rest)) '.' = some (ds.length + mid.length) := by
    unfold strchr
    have hA : NUL ∉ ds ++ mid := by simp [hdnul, hmidnul]
    have e : ds ++ (mid ++ '.' :: d :: rest) = (ds ++ mid) ++ '.' :: (d :: rest) := by simp
    rw [e, cstr_append_of_no_nul _ _ hA]
    have e2 : cstr ('.' :: (d :: rest)) = '.' :: cstr (d :: rest) := by simp [cstr, NUL]
    rw [e2]
    have := findChar_append '.' (ds ++ mid) (cstr (d :: rest)) (by simp [hddot, hmid])
    simpa using this
  have hget : (pre ++ ':' :: (' ' :: (ds ++ mid ++ '.' :: d :: rest))).getD
      (pre.length + 2 + (ds.length + mid.length) + 1) NUL = d := by
    have e : pre ++ ':' :: (' ' :: (ds ++ mid ++ '.' :: d :: rest))
        = (pre ++ [':', ' '] ++ ds ++ mid ++ ['.']) ++ d :: rest := by simp
    have hl : pre.length + 2 + (ds.length + mid.length) + 1
        = (pre ++ [':', ' '] ++ ds ++ mid ++ ['.']).length := by simp; omega
    rw [e, hl]
    exact getD_append_length _ _ _ _
  rw [hbuf]
  unfold parseSignal
  simp only [hcolon, hdrop, hatoi, hdot, hget, hqfv]
  have h1 : toInt32 ((q : Int) * 10) = (q : Int) * 10 := by unfold toInt32; omega
  rw [h1]
  unfold toInt32; omega

theorem getSignal_eq (m : Modem) :
    ClientSIM5360.getSignal m = ClientSIM800.getSignal m := rfl

theorem getSignal_result (m : Modem) :
    (ClientSIM800.getSignal m).1 =
      if (sendCommand (some "AT+CSQ\r".toList) m).1 = true then
        parseSignal (sendCommand (some "AT+CSQ\r".toList) m).2.m_buffer
      else -1 := by
  unfold ClientSIM800.getSignal
  simp only
  split <;> rfl

/-- C11. `getSignal` of the SIM800 and SIM5360 clients. When `AT+CSQ` is answered with a
reply that has no colon and no NUL before `": "`, then the decimal number `q`, then
(possibly after bytes that are neither a digit at the front, a point nor a NUL) a point
and the digit `qf`, the result is `q*10 + qf`, for every `qf` from 0 to 9 and every `q`
up to 214748363, the boundaries 0 and 31 included. When the command times out, or the
reply has no colon, the result is -1. -/
theorem getSignal_decodes (m : Modem) :
    (∀ (r : Reply) (rs : List Reply) (q qf : Nat) (pre mid rest : List Char),
      m.replies = r :: rs → r.ret ≠ 0 →
      r.buffer = pre ++ ": ".toList ++ Nat.toDigits 10 q ++ mid
        ++ '.' :: Nat.digitChar qf :: rest →
      ':' ∉ pre → NUL ∉ pre → '.' ∉ mid → NUL ∉ mid →
      (∀ c ∈ mid.head?, isdigit c = false) →
      q ≤ 214748363 → qf ≤ 9 →
      (ClientSIM800.getSignal m).1 = (q : Int) * 10 + qf ∧
      (ClientSIM5360.getSignal m).1 = (q : Int) * 10 + qf) ∧
    (m.replies = [] →
      (ClientSIM800.getSignal m).1 = -1 ∧ (ClientSIM5360.getSignal m).1 = -1) ∧
    (∀ (r : Reply) (rs : List Reply), m.replies = r :: rs →
      r.ret = 0 ∨ ':' ∉ cstr r.buffer →
      (ClientSIM800.getSignal m).1 = -1 ∧ (ClientSIM5360.getSignal m).1 = -1) := by
  refine ⟨?_, ?_, ?_⟩
  · intro r rs q qf pre mid rest hr hok hbuf hpre hnul hmid hmidnul hmidhead hq hqf
    obtain ⟨h1, h2⟩ := sendCommand_reply (some "AT+CSQ\r".toList) m r rs hr
    have hv := parseSignal_value q qf pre mid rest hpre hnul hmid hmidnul hmidhead hq hqf
    rw [← hbuf, ← h2] at hv
    have h800 : (ClientSIM800.getSignal m).1 = (q : Int) * 10 + qf := by
      rw [getSignal_result, h1]
      simp only [hok, ne_eq, not_false_eq_true, decide_True, if_true]
      exact hv
    exact ⟨h800, by rw [getSignal_eq]; exact h800⟩
  · intro hr
    have h := sendCommand_silent (some "AT+CSQ\r".toList) m hr
    have h800 : (ClientSIM800.getSignal m).1 = -1 := by
      rw [getSignal_result, h]
      simp only [Bool.false_eq_true, if_false]
    exact ⟨h800, by rw [getSignal_eq]; exact h800⟩
  · intro r rs hr hcase
    obtain ⟨h1, h2⟩ := sendCommand_reply (some "AT+CSQ\r".toList) m r rs hr
    have h800 : (ClientSIM800.getSignal m).1 = -1 := by
      have hp : ':' ∉ cstr r.buffer →
          parseSignal (sendCommand (some "AT+CSQ\r".toList) m).2.m_buffer = -1 := by
        intro hc
        unfold parseSignal strchr
        rw [h2, findChar_none ':' _ hc]
      rw [getSignal_result, h1]
      split
      · rcases hcase with h0 | hc
        · rename_i ht
          simp [h0] at ht
        · exact hp hc
      · rfl
    exact ⟨h800, by rw [getSignal_eq]; exact h800⟩

/-- The boundary values of the specification: the register pairs (0, 0), (0, 9), (31, 0)
and (31, 9) decode to 0, 9, 310 and 319; the last one is an instance of the theorem. -/
theorem getSignal_decodes_witness :
    (ClientSIM800.getSignal
      ⟨[], HTTP_DISCONNECTED, [], 0, [⟨1, "\r\n+CSQ: 0.0\r\n\r\nOK\r\n".toList⟩], []⟩).1 = 0 ∧
    (ClientSIM800.getSignal
      ⟨[], HTTP_DISCONNECTED, [], 0, [⟨1, "\r\n+CSQ: 0.9\r\n\r\nOK\r\n".toList⟩], []⟩).1 = 9 ∧
    (ClientSIM5360.getSignal
      ⟨[], HTTP_DISCONNECTED, [], 0, [⟨1, "\r\n+CSQ: 31.0\r\n\r\nOK\r\n".toList⟩], []⟩).1 = 310 ∧
    (ClientSIM5360.getSignal
      ⟨[], HTTP_DISCONNECTED, [], 0, [⟨1, "\r\n+CSQ: 31.9\r\n\r\nOK\r\n".toList⟩], []⟩).1
        = ((31 : Nat) : Int) * 10 + (9 : Nat) :=
  ⟨by decide, by decide, by decide,
    ((getSignal_decodes
      ⟨[], HTTP_DISCONNECTED, [], 0, [⟨1, "\r\n+CSQ: 31.9\r\n\r\nOK\r\n".toList⟩], []⟩).1
      ⟨1, "\r\n+CSQ: 31.9\r\n\r\nOK\r\n".toList⟩ [] 31 9 "\r\n+CSQ".toList []
      "\r\n\r\nOK\r\n".toList rfl (by decide) (by decide) (by decide) (by decide) (by decide)
      (by decide) (by decide) (by decide) (by decide)).2⟩

/-! ### Module bring-up -/

theorem probeLoop_spec (probe : Modem → Bool × Modem) : ∀ (k : Nat) (md : Modem),
    (firstSuccess probe k md = none →
      probeLoop probe k md = (false, afterRounds probe k md)) ∧
    (∀ i, firstSuccess probe k md = some i →
      probeLoop probe k md = (true, afterRounds probe (i + 1) md) ∧ i < k) := by
  intro k
  induction k with
  | zero => intro md; simp [firstSuccess, probeLoop, afterRounds]
  | succ k ih =>
    intro md
    obtain ⟨ih1, ih2⟩ := ih (probe md).2
    cases hp : (probe md).1 with
    | true =>
      refine ⟨?_, ?_⟩
      · intro h; simp [firstSuccess, hp] at h
      · intro i h
        simp only [firstSuccess, hp, if_true, Option.some.injEq] at h
        subst h
        simp [probeLoop, hp, afterRounds]
    | false =>
      refine ⟨?_, ?_⟩
      · intro h
        simp only [firstSuccess, hp, Bool.false_eq_true, if_false, Option.map_eq_none'] at h
        simp [probeLoop, hp, afterRounds, ih1 h]
      · intro i h
        simp only [firstSuccess, hp, Bool.false_eq_true, if_false] at h
        cases hf : firstSuccess probe k (probe md).2 with
        | none => simp [hf] at h
        | some j =>
          simp only [hf, Option.map_some', Option.some.injEq] at h
          subst h
          obtain ⟨e, hlt⟩ := ih2 j hf
          refine ⟨?_, by omega⟩
          simp [probeLoop, hp, afterRounds, e]

theorem afterRounds_add (probe : Modem → Bool × Modem) : ∀ (a b : Nat) (md : Modem),
    afterRounds probe (a + b) md = afterRounds probe b (afterRounds probe a md) := by
  intro a
  induction a with
  | zero => intro b md; simp [afterRounds]
  | succ a ih =>
    intro b md
    rw [show a + 1 + b = (a + b) + 1 by omega]
    simp only [afterRounds]
    exact ih b _

theorem firstSuccess_add (probe : Modem → Bool × Modem) : ∀ (a b : Nat) (md : Modem),
    (∀ i, firstSuccess probe a md = some i → firstSuccess probe (a + b) md = some i) ∧
    (firstSuccess probe a md = none →
      firstSuccess probe (a + b) md
        = (firstSuccess probe b (afterRounds probe a md)).map (· + a)) := by
  intro a
  induction a with
  | zero =>
    intro b md
    refine ⟨fun i h => by simp [firstSuccess] at h, fun _ => ?_⟩
    simp only [Nat.zero_add, afterRounds, Nat.add_zero]
    cases firstSuccess probe b md <;> simp
  | succ a ih =>
    intro b md
    obtain ⟨ih1, ih2⟩ := ih b (probe md).2
    rw [show a + 1 + b = (a + b) + 1 by omega]
    cases hp : (probe md).1 with
    | true =>
      refine ⟨fun i h => ?_, fun h => ?_⟩
      · simp only [firstSuccess, hp, if_true] at h ⊢
        exact h
      · simp [firstSuccess, hp] at h
    | false =>
      refine ⟨fun i h => ?_, fun h => ?_⟩
      · simp only [firstSuccess, hp, Bool.false_eq_true, if_false] at h ⊢
        cases hf : firstSuccess probe a (probe md).2 with
        | none => simp [hf] at h
        | some j =>
          simp only [hf, Option.map_some', Option.some.injEq] at h
          subst h
          simp [ih1 j hf]
      · simp only [firstSuccess, hp, Bool.false_eq_true, if_false, Option.map_eq_none'] at h
        simp only [firstSuccess, hp, Bool.false_eq_true, if_false, afterRounds, ih2 h]
        cases firstSuccess probe b (afterRounds probe a (probe md).2) <;> simp
        omega

theorem powerLoop_spec (probe : Modem → Bool × Modem) (rounds : Nat) (hM : 0 < rounds)
    (identify : CellClient → CellClient) : ∀ (n : Nat) (c : CellClient),
    (firstSuccess probe (n * rounds) c.modem = none →
      powerLoop probe rounds identify n c =
        (false, { c with powerToggles := c.powerToggles ++ toggleTimes probe rounds n c.modem,
                         modem := afterRounds probe (n * rounds) c.modem })) ∧
    (∀ i, firstSuccess probe (n * rounds) c.modem = some i →
      i < n * rounds ∧
      powerLoop probe rounds identify n c =
        (true, identify { c with
          powerToggles := c.powerToggles ++ toggleTimes probe rounds (i / rounds + 1) c.modem,
          modem := afterRounds probe (i + 1) c.modem,
          m_stage := 2 })) := by
  intro n
  induction n with
  | zero =>
    intro c
    simp [firstSuccess, powerLoop, afterRounds, toggleTimes]
  | succ n ih =>
    intro c
    have hmul : (n + 1) * rounds = rounds + n * rounds := by ring
    rw [hmul]
    obtain ⟨hs1, hs2⟩ := firstSuccess_add probe rounds (n * rounds) c.modem
    obtain ⟨hp1, hp2⟩ := probeLoop_spec probe rounds c.modem
    cases hf : firstSuccess probe rounds c.modem with
    | some i0 =>
      obtain ⟨e, hlt⟩ := hp2 i0 hf
      have hall := hs1 i0 hf
      refine ⟨fun h => by rw [hall] at h; simp at h, fun i h => ?_⟩
      rw [hall] at h
      simp only [Option.some.injEq] at h
      subst h
      refine ⟨by omega, ?_⟩
      have hdiv : i0 / rounds = 0 := Nat.div_eq_of_lt hlt
      simp [powerLoop, e, hdiv, toggleTimes]
    | none =>
      have e := hp1 hf
      have hall := hs2 hf
      obtain ⟨ih1, ih2⟩ := ih { c with
        powerToggles := c.powerToggles ++ [c.modem.written.length],
        modem := afterRounds probe rounds c.modem }
      refine ⟨fun h => ?_, fun i h => ?_⟩
      · rw [hall] at h
        simp only [Option.map_eq_none'] at h
        have := ih1 h
        simp only [powerLoop, e, Bool.false_eq_true, if_false]
        rw [this]
        simp only [afterRounds_add, toggleTimes, List.append_assoc, List.singleton_append]
      · rw [hall] at h
        cases hg : firstSuccess probe (n * rounds) (afterRounds probe rounds c.modem) with
        | none => simp [hg] at h
        | some j =>
          simp only [hg, Option.map_some', Option.some.injEq] at h
          subst h
          obtain ⟨hjlt, hj⟩ := ih2 j hg
          refine ⟨by omega, ?_⟩
          simp only [powerLoop, e, Bool.false_eq_true, if_false]
          rw [hj]
          have hdiv : (j + rounds) / rounds = j / rounds + 1 := Nat.add_div_right j hM
          have hrd : afterRounds probe (j + rounds + 1) c.modem
              = afterRounds probe (j + 1) (afterRounds probe rounds c.modem) := by
            rw [show j + rounds + 1 = rounds + (j + 1) by omega, afterRounds_add]
          simp only [hdiv, hrd, toggleTimes, List.append_assoc, List.singleton_append]

theorem toggleTimes_length (probe : Modem → Bool × Modem) (rounds : Nat) :
    ∀ (n : Nat) (md : Modem), (toggleTimes probe rounds n md).length = n := by
  intro n
  induction n with
  | zero => intro md; rfl
  | succ n ih => intro md; simp [toggleTimes, ih]

theorem powerLoop_outcome (probe : Modem → Bool × Modem) (rounds : Nat) (hM : 0 < rounds)
    (identify : CellClient → CellClient)
    (hid : ∀ x, (identify x).m_stage = x.m_stage ∧ (identify x).powerToggles = x.powerToggles ∧
      (identify x).modem = x.modem) (c : CellClient) :
    (∀ i, firstSuccess probe (10 * rounds) c.modem = some i →
      (powerLoop probe rounds identify 10 (openPort c)).1 = true ∧
      (powerLoop probe rounds identify 10 (openPort c)).2.m_stage = 2 ∧
      (powerLoop probe rounds identify 10 (openPort c)).2.powerToggles
        = c.powerToggles ++ toggleTimes probe rounds (i / rounds + 1) c.modem ∧
      (powerLoop probe rounds identify 10 (openPort c)).2.powerToggles.length
        = c.powerToggles.length + (i / rounds + 1) ∧
      i / rounds + 1 ≤ 10 ∧
      (powerLoop probe rounds identify 10 (openPort c)).2.modem
        = afterRounds probe (i + 1) c.modem) ∧
    (firstSuccess probe (10 * rounds) c.modem = none →
      (powerLoop probe rounds identify 10 (openPort c)).1 = false ∧
      (powerLoop probe rounds identify 10 (openPort c)).2.m_stage = (openPort c).m_stage ∧
      (powerLoop probe rounds identify 10 (openPort c)).2.powerToggles
        = c.powerToggles ++ toggleTimes probe rounds 10 c.modem ∧
      (powerLoop probe rounds identify 10 (openPort c)).2.powerToggles.length
        = c.powerToggles.length + 10 ∧
      (powerLoop probe rounds identify 10 (openPort c)).2.modem
        = afterRounds probe (10 * rounds) c.modem) ∧
    ((powerLoop probe rounds identify 10 (openPort c)).1 = false ↔
      firstSuccess probe (10 * rounds) c.modem = none) := by
  have hopen : (openPort c).modem = c.modem ∧ (openPort c).powerToggles = c.powerToggles := by
    unfold openPort; split <;> simp
  obtain ⟨h1, h2⟩ := powerLoop_spec probe rounds hM identify 10 (openPort c)
  rw [hopen.1, hopen.2] at h1 h2
  have hsome : ∀ i, firstSuccess probe (10 * rounds) c.modem = some i →
      (powerLoop probe rounds identify 10 (openPort c)).1 = true ∧
      (powerLoop probe rounds identify 10 (openPort c)).2.m_stage = 2 ∧
      (powerLoop probe rounds identify 10 (openPort c)).2.powerToggles
        = c.powerToggles ++ toggleTimes probe rounds (i / rounds + 1) c.modem ∧
      (powerLoop probe rounds identify 10 (openPort c)).2.powerToggles.length
        = c.powerToggles.length + (i / rounds + 1) ∧
      i / rounds + 1 ≤ 10 ∧
      (powerLoop probe rounds identify 10 (openPort c)).2.modem
        = afterRounds probe (i + 1) c.modem := by
    intro i h
    obtain ⟨hlt, e⟩ := h2 i h
    have hdiv : i / rounds < 10 := (Nat.div_lt_iff_lt_mul hM).2 hlt
    rw [e]
    refine ⟨rfl, ?_, ?_, ?_, by omega, ?_⟩
    · rw [(hid _).1]
    · rw [(hid _).2.1]
    · rw [(hid _).2.1]
      simp [toggleTimes_length]
    · rw [(hid _).2.2]
  have hnone : firstSuccess probe (10 * rounds) c.modem = none →
      (powerLoop probe rounds identify 10 (openPort c)).1 = false ∧
      (powerLoop probe rounds identify 10 (openPort c)).2.m_stage = (openPort c).m_stage ∧
      (powerLoop probe rounds identify 10 (openPort c)).2.powerToggles
        = c.powerToggles ++ toggleTimes probe rounds 10 c.modem ∧
      (powerLoop probe rounds identify 10 (openPort c)).2.powerToggles.length
        = c.powerToggles.length + 10 ∧
      (powerLoop probe rounds identify 10 (openPort c)).2.modem
        = afterRounds probe (10 * rounds) c.modem := by
    intro h
    rw [h1 h]
    exact ⟨rfl, rfl, rfl, by simp [toggleTimes_length], rfl⟩
  refine ⟨hsome, hnone, ?_⟩
  constructor
  · intro hf
    cases hfs : firstSuccess probe (10 * rounds) c.modem with
    | none => rfl
    | some i =>
      rw [(hsome i hfs).1] at hf
      exact absurd hf (by decide)
  · intro h; exact (hnone h).1

theorem identify_fields (modelSize imeiSize : Nat) (x : CellClient) :
    (ClientSIM5360.identify modelSize imeiSize x).m_stage = x.m_stage ∧
    (ClientSIM5360.identify modelSize imeiSize x).powerToggles = x.powerToggles ∧
    (ClientSIM5360.identify modelSize imeiSize x).modem = x.modem := by
  unfold ClientSIM5360.identify
  simp only
  split <;> split <;> (try split) <;> simp

/-- C12. `begin` of the SIM800 and SIM5360 clients, for every behaviour of the modem,
with `M = 3` resp. `M = 5` probe rounds per power attempt. If round `i` is the first of
the `10 * M` probe rounds the modem would acknowledge, `begin` returns true with
`m_stage = 2` after `i / M + 1` power toggles (at most 10), each but the last followed by
exactly `M` probe rounds, and after exactly `i + 1` probe rounds in all. Otherwise it
returns false after exactly 10 power toggles, each followed by `M` probe rounds. It
returns false if and only if none of the `10 * M` rounds succeeds. -/
theorem begin_power_attempts (c : CellClient) (modelSize imeiSize : Nat) :
    ((∀ i, firstSuccess ClientSIM800.probe (10 * 3) c.modem = some i →
        (ClientSIM800.begin c).1 = true ∧
        (ClientSIM800.begin c).2.m_stage = 2 ∧
        (ClientSIM800.begin c).2.powerToggles
          = c.powerToggles ++ toggleTimes ClientSIM800.probe 3 (i / 3 + 1) c.modem ∧
        (ClientSIM800.begin c).2.powerToggles.length = c.powerToggles.length + (i / 3 + 1) ∧
        i / 3 + 1 ≤ 10 ∧
        (ClientSIM800.begin c).2.modem = afterRounds ClientSIM800.probe (i + 1) c.modem) ∧
      (firstSuccess ClientSIM800.probe (10 * 3) c.modem = none →
        (ClientSIM800.begin c).1 = false ∧
        (ClientSIM800.begin c).2.m_stage = (openPort c).m_stage ∧
        (ClientSIM800.begin c).2.powerToggles
          = c.powerToggles ++ toggleTimes ClientSIM800.probe 3 10 c.modem ∧
        (ClientSIM800.begin c).2.powerToggles.length = c.powerToggles.length + 10 ∧
        (ClientSIM800.begin c).2.modem = afterRounds ClientSIM800.probe (10 * 3) c.modem) ∧
      ((ClientSIM800.begin c).1 = false ↔
        firstSuccess ClientSIM800.probe (10 * 3) c.modem = none)) ∧
    ((∀ i, firstSuccess ClientSIM5360.probe (10 * 5) c.modem = some i →
        (ClientSIM5360.begin modelSize imeiSize c).1 = true ∧
        (ClientSIM5360.begin modelSize imeiSize c).2.m_stage = 2 ∧
        (ClientSIM5360.begin modelSize imeiSize c).2.powerToggles
          = c.powerToggles ++ toggleTimes ClientSIM5360.probe 5 (i / 5 + 1) c.modem ∧
        (ClientSIM5360.begin modelSize imeiSize c).2.powerToggles.length
          = c.powerToggles.length + (i / 5 + 1) ∧
        i / 5 + 1 ≤ 10 ∧
        (ClientSIM5360.begin modelSize imeiSize c).2.modem
          = afterRounds ClientSIM5360.probe (i + 1) c.modem) ∧
      (firstSuccess ClientSIM5360.probe (10 * 5) c.modem = none →
        (ClientSIM5360.begin modelSize imeiSize c).1 = false ∧
        (ClientSIM5360.begin modelSize imeiSize c).2.m_stage = (openPort c).m_stage ∧
        (ClientSIM5360.begin modelSize imeiSize c).2.powerToggles
          = c.powerToggles ++ toggleTimes ClientSIM5360.probe 5 10 c.modem ∧
        (ClientSIM5360.begin modelSize imeiSize c).2.powerToggles.length
          = c.powerToggles.length + 10 ∧
        (ClientSIM5360.begin modelSize imeiSize c).2.modem
          = afterRounds ClientSIM5360.probe (10 * 5) c.modem) ∧
      ((ClientSIM5360.begin modelSize imeiSize c).1 = false ↔
        firstSuccess ClientSIM5360.probe (10 * 5) c.modem = none)) :=
  ⟨powerLoop_outcome ClientSIM800.probe 3 (by decide) id (fun _ => ⟨rfl, rfl, rfl⟩) c,
    powerLoop_outcome ClientSIM5360.probe 5 (by decide)
      (ClientSIM5360.identify modelSize imeiSize) (identify_fields modelSize imeiSize) c⟩

/-- A SIM800 that leaves seven probes unanswered and acknowledges the eighth: round 7 is
the first to succeed, and `begin` returns true after three power toggles, issued before
the first, the fourth and the seventh probe. -/
theorem begin_power_attempts_witness :
    firstSuccess ClientSIM800.probe (10 * 3)
      (⟨[], HTTP_DISCONNECTED, [], 0,
        List.replicate 7 ⟨0, []⟩ ++ [⟨1, "\r\nOK\r\n".toList⟩], []⟩ : Modem) = some 7 ∧
    (ClientSIM800.begin
      ⟨⟨[], HTTP_DISCONNECTED, [], 0,
        List.replicate 7 ⟨0, []⟩ ++ [⟨1, "\r\nOK\r\n".toList⟩], []⟩,
        0, [], [], []⟩).2.powerToggles
      = [0, 3, 6] ∧
    (ClientSIM800.begin
      ⟨⟨[], HTTP_DISCONNECTED, [], 0,
        List.replicate 7 ⟨0, []⟩ ++ [⟨1, "\r\nOK\r\n".toList⟩], []⟩, 0, [], [], []⟩).2.m_stage
      = 2 :=
  ⟨by decide, by decide,
    (((begin_power_attempts
      ⟨⟨[], HTTP_DISCONNECTED, [], 0,
        List.replicate 7 ⟨0, []⟩ ++ [⟨1, "\r\nOK\r\n".toList⟩], []⟩, 0, [], [], []⟩ 0 0).1.1 7
      (by decide))).2.1⟩

/-! ### The receive buffer of the WiFi HTTP client -/

theorem mem_of_mem_cstr (c : Char) : ∀ (s : List Char), c ∈ cstr s → c ∈ s := by
  intro s
  induction s with
  | nil => intro h; simp [cstr] at h
  | cons x xs ih =>
    intro h
    by_cases hx : x = NUL
    · simp [cstr, hx] at h
    · simp only [cstr, hx, if_false, List.mem_cons] at h
      rcases h with h | h
      · simp [h]
      · simp [ih h]

theorem findSub_none_of_head (a : Char) (tl : List Char) : ∀ (s : List Char), a ∉ s →
    findSub (a :: tl) s = none := by
  intro s
  induction s with
  | nil => intro _; simp [findSub]
  | cons x xs ih =>
    intro h
    simp only [List.mem_cons, not_or] at h
    have hx : ¬ (a = x) := h.1
    simp [findSub, List.isPrefixOf, hx, ih h.2]

theorem receiveLoop_without_cr : ∀ (incoming acc : List Char), '\r' ∉ incoming → '\r' ∉ acc →
    HTTPClientWIFI.receiveLoop incoming acc = (false, acc ++ incoming) := by
  intro incoming
  induction incoming with
  | nil => intro acc _ _; simp [HTTPClientWIFI.receiveLoop]
  | cons b rest ih =>
    intro acc h1 h2
    simp only [List.mem_cons, not_or] at h1
    have hacc : '\r' ∉ acc ++ [b] := by
      simp only [List.mem_append, List.mem_singleton, not_or]
      exact ⟨h2, h1.1⟩
    have hs : strstr (acc ++ [b]) "\r\n\r\n".toList = none :=
      findSub_none_of_head '\r' _ _ (fun hm => hacc (mem_of_mem_cstr _ _ hm))
    rw [HTTPClientWIFI.receiveLoop, hs]
    simp only [Option.isSome_none, Bool.false_eq_true, if_false]
    rw [ih (acc ++ [b]) h1.2 hacc]
    simp

/-- C13 at the failing input. When the socket delivers `cap + 1` bytes `a` before the
timeout, the loop of `HTTPClientWIFI::receive` stores all of them and its last store, the
terminating NUL, goes to index `cap + 1`: with `cap + 1` the size of `m_buffer` that is
one past the end, and nothing is cut off. A reply of 8 bytes that ends the headers is
likewise stored whole, count 8, over a buffer of 4 bytes. -/
theorem http_wifi_receive_stores_past_capacity (cap : Nat) :
    HTTPClientWIFI.receiveLoop (List.replicate (cap + 1) 'a') []
      = (false, List.replicate (cap + 1) 'a') ∧
    HTTPClientWIFI.lastStoreIndex (List.replicate (cap + 1) 'a') = some (cap + 1) ∧
    (HTTPClientWIFI.receive "aaaa\r\n\r\n".toList ⟨List.replicate 4 'z', HTTP_SENT⟩).1
      = ⟨some 0, some 8⟩ ∧
    (HTTPClientWIFI.receive "aaaa\r\n\r\n".toList ⟨List.replicate 4 'z', HTTP_SENT⟩).2.m_buffer
      = "aaaa\r\n\r\n".toList ++ [NUL] := by
  have hno : '\r' ∉ List.replicate (cap + 1) 'a' := by
    intro h
    have := List.eq_of_mem_replicate h
    exact absurd this (by decide)
  have h := receiveLoop_without_cr (List.replicate (cap + 1) 'a') [] hno (by simp)
  simp only [List.nil_append] at h
  refine ⟨h, ?_, by decide, by decide⟩
  unfold HTTPClientWIFI.lastStoreIndex
  rw [h]
  simp [List.replicate_succ]
end Freematics
